import Mathlib

/-!
Shallow embedding of the FTDT two-phase-commit engine
(`backend/app/services/{coordinator_service,participant_service,lock_manager,
transaction_manager,recovery_manager}.py` and the API edge
`backend/app/api/participant.py`).

A participant node's durable store is modelled as a `NodeState`: the account
rows, `LocalTransaction` rows, write-ahead-log rows and lock rows of that
node, plus a logical clock standing for `datetime.utcnow()` (only relative
order of timestamps matters).  Every service operation is embedded as a pure
function from state to state; an HTTP invocation corresponds to one function
application, and only committed session state is represented (an exception
that escapes a service rolls the uncommitted session back, i.e. returns the
incoming state).
-/

namespace FTDT

/-- `TransactionStatus` enum from `app/models.py`. -/
inductive TransactionStatus
  | init
  | preparing
  | prepared
  | committing
  | committed
  | aborting
  | aborted
deriving DecidableEq

/-- `LockType` enum from `app/models.py`. -/
inductive LockType
  | read
  | write
deriving DecidableEq

/-- `Account` row (`app/models.py`): balance is a Python int. -/
structure Account where
  id : String
  balance : Int
  node_id : String
  updated_at : Nat := 0
deriving DecidableEq

/-- The participant-scoped part of `operation_data` that the participant
service reads: `operation_data["local_account"]` and
`operation_data["local_delta"]` (set by the coordinator's payload). -/
structure OperationData where
  local_account : String
  local_delta : Int
deriving DecidableEq

/-- `LocalTransaction` row (`app/models.py`), unique on
`(transaction_id, node_id)`. -/
structure LocalTransaction where
  transaction_id : String
  node_id : String
  status : TransactionStatus
  vote : Option String := none
  operation_type : String
  operation_data : OperationData
  created_at : Nat := 0
  prepared_at : Option Nat := none
  decided_at : Option Nat := none
deriving DecidableEq

/-- `TransactionLog` WAL row (`app/models.py`); `old_state`/`new_state`
hold the `{"balance": v}` snapshots written by `log_prepare`. -/
structure TransactionLog where
  transaction_id : String
  node_id : String
  log_type : String
  old_state : Option Int := none
  new_state : Option Int := none
  applied : Bool
  created_at : Nat
deriving DecidableEq

/-- `Lock` row (`app/models.py`); a lock is held while `released_at = none`. -/
structure Lock where
  resource_type : String
  resource_id : String
  node_id : String
  lock_type : LockType
  transaction_id : String
  acquired_at : Nat := 0
  released_at : Option Nat := none
deriving DecidableEq

/-- The durable store of one node (`settings.node_id` / `settings.node_role`
are process-wide constants, carried here as fields), plus a logical clock
standing for `datetime.utcnow()`. -/
structure NodeState where
  node_id : String
  node_role : String
  accounts : List Account
  local_txs : List LocalTransaction
  wal : List TransactionLog
  locks : List Lock
  clock : Nat
deriving DecidableEq

/-- The conflict query of `LockManager.acquire_write_lock`: any `Lock` row
with this `resource_id` and `released_at IS NULL` (the query filters neither
on `node_id` nor on `lock_type`). -/
def lockConflict (s : NodeState) (rid : String) : Bool :=
  s.locks.any fun l => l.resource_id == rid && l.released_at.isNone

/-- The `uq_lock_resource` unique constraint of the `locks` table
(`app/models.py`): one row per
`(resource_type, resource_id, node_id, lock_type)`.  Lock rows are never
deleted (release only sets `released_at`), so the insert in
`acquire_write_lock` (always `resource_type="account"`, `lock_type=WRITE`,
`node_id = settings.node_id`) violates the constraint as soon as any row
for the account exists, released or not. -/
def lockInsertConflict (s : NodeState) (rid : String) : Bool :=
  s.locks.any fun l => l.resource_type == "account" && l.resource_id == rid &&
    l.node_id == s.node_id && l.lock_type == LockType.write

/-- `LockManager.acquire_write_lock` (`app/services/lock_manager.py`).
The poll loop (check, sleep 100 ms, retry until `timeout_ms` elapses) is
embedded with an explicit number of remaining polls; in the sequential
semantics the state does not change while the caller sleeps, so the loop
re-reads the same table.  `some (flag, state)` models the regular returns
(`True` after the insert, `False` on timeout); `none` models the
`IntegrityError` raised by `db.flush()` when the insert violates
`uq_lock_resource` — that exception escapes the lock manager and its
caller, and nothing is committed. -/
def acquire_write_lock (tid rid : String) :
    Nat → NodeState → Option (Bool × NodeState)
  | 0, s => some (false, s)
  | polls + 1, s =>
    if lockConflict s rid then
      acquire_write_lock tid rid polls s
    else if lockInsertConflict s rid then
      none
    else
      some (true,
        { s with
          locks := s.locks ++
            [{ resource_type := "account"
               resource_id := rid
               node_id := s.node_id
               lock_type := LockType.write
               transaction_id := tid
               acquired_at := s.clock
               released_at := none }] })

/-- `LockManager.release_all_locks`: set `released_at = now` on every
unreleased lock row of `transaction_id`. -/
def release_all_locks (tid : String) (s : NodeState) : NodeState :=
  { s with
    locks := s.locks.map fun l =>
      if l.transaction_id == tid && l.released_at.isNone then
        { l with released_at := some s.clock }
      else l }

/-- A sequence of lock-manager operations, as in the claim about the lock
invariant. -/
inductive LockOp
  | acquire (transaction_id resource_id : String) (polls : Nat)
  | release (transaction_id : String)

def applyLockOp (s : NodeState) : LockOp → NodeState
  | LockOp.acquire tid rid polls =>
    match acquire_write_lock tid rid polls s with
    | none => s
    | some r => r.2
  | LockOp.release tid => release_all_locks tid s

def applyLockOps (s : NodeState) (ops : List LockOp) : NodeState :=
  ops.foldl applyLockOp s

/-- At most one unreleased WRITE lock row per `(resource_id, node_id)`. -/
def WriteLockInv (locks : List Lock) : Prop :=
  locks.Pairwise fun l m =>
    l.lock_type = LockType.write → m.lock_type = LockType.write →
    l.released_at = none → m.released_at = none →
    ¬(l.resource_id = m.resource_id ∧ l.node_id = m.node_id)

instance (locks : List Lock) : Decidable (WriteLockInv locks) := by
  unfold WriteLockInv
  infer_instance

/-- The `SELECT ... WHERE transaction_id = tid AND node_id = settings.node_id`
lookup used by `commit_transaction` / `abort_transaction` (unique row by the
`uq_local_transaction` constraint). -/
def findLocalTx (s : NodeState) (tid : String) : Option LocalTransaction :=
  s.local_txs.find? fun t => t.transaction_id == tid && t.node_id == s.node_id

/-- The `SELECT ... WHERE Account.id = aid AND Account.node_id =
settings.node_id` lookup (unique row by `uq_account_node`). -/
def findAccount (s : NodeState) (aid : String) : Option Account :=
  s.accounts.find? fun a => a.id == aid && a.node_id == s.node_id

/-- ORM mutation of the loaded `LocalTransaction` row: rewrite the unique row
matching `(tid, settings.node_id)`. -/
def updateTx (s : NodeState) (tid : String)
    (f : LocalTransaction → LocalTransaction) : NodeState :=
  { s with
    local_txs := s.local_txs.map fun t =>
      if t.transaction_id == tid && t.node_id == s.node_id then f t else t }

/-- Common shape of the four `TransactionManager` / recovery WAL appends:
one row with `node_id = settings.node_id`, `created_at = utcnow()`. -/
def appendLog (s : NodeState) (tid lt : String) (oldSt newSt : Option Int)
    (ap : Bool) : NodeState :=
  { s with
    wal := s.wal ++
      [{ transaction_id := tid
         node_id := s.node_id
         log_type := lt
         old_state := oldSt
         new_state := newSt
         applied := ap
         created_at := s.clock }]
    clock := s.clock + 1 }

/-- `TransactionManager.log_prepare`: `log_type="prepare"`, `applied=False`,
with the before/after balance snapshots. -/
def log_prepare (s : NodeState) (tid : String) (before after : Int) : NodeState :=
  appendLog s tid "prepare" (some before) (some after) false

/-- `TransactionManager.log_commit`: `log_type="commit"`, `applied=True`. -/
def log_commit (s : NodeState) (tid : String) : NodeState :=
  appendLog s tid "commit" none none true

/-- `TransactionManager.log_abort`: `log_type="abort"`, `applied=True`. -/
def log_abort (s : NodeState) (tid : String) : NodeState :=
  appendLog s tid "abort" none none true

/-- The `log_type="recovery_abort"`, `applied=True` row appended by
`RecoveryManager.recover`. -/
def log_recovery_abort (s : NodeState) (tid : String) : NodeState :=
  appendLog s tid "recovery_abort" none none true

/-- `ParticipantService._abort_prepare`: set the local transaction to
`ABORTED` with vote `"no"`, release any locks of the transaction, commit. -/
def abort_prepare (s : NodeState) (tid : String) : NodeState :=
  release_all_locks tid
    (updateTx s tid fun t =>
      { t with status := TransactionStatus.aborted, vote := some "no" })

/-- `ParticipantService._apply_delta`: row-locked
`account.balance += delta`, `updated_at = utcnow()`. -/
def applyDelta (s : NodeState) (aid : String) (delta : Int) : NodeState :=
  { s with
    accounts := s.accounts.map fun a =>
      if a.id == aid && a.node_id == s.node_id then
        { a with balance := a.balance + delta, updated_at := s.clock }
      else a }

/-- The `LocalTransaction` row inserted at the top of `prepare_transaction`
(`status=PREPARING`, `node_id = settings.node_id`). -/
def pendingTx (s : NodeState) (tid ot : String) (od : OperationData) :
    LocalTransaction :=
  { transaction_id := tid
    node_id := s.node_id
    status := TransactionStatus.preparing
    operation_type := ot
    operation_data := od
    created_at := s.clock }

/-- `ParticipantService.prepare_transaction`.  `none` models an exception
escaping the service: the `uq_local_transaction` IntegrityError raised by
`db.flush()` when a row for `(transaction_id, node_id)` already exists, or
the `uq_lock_resource` IntegrityError escaping from the lock insert in
`acquire_write_lock`; in either case nothing was committed.  Otherwise
returns the vote and the committed state. -/
def prepare_transaction (s : NodeState) (tid ot : String) (od : OperationData)
    (polls : Nat) : Option (String × NodeState) :=
  if (findLocalTx s tid).isSome then
    none
  else
    let tx0 : LocalTransaction := pendingTx s tid ot od
    let s0 := { s with local_txs := s.local_txs ++ [tx0] }
    if ot ≠ "transfer" then
      some ("yes",
        updateTx s0 tid fun t =>
          { t with
            status := TransactionStatus.prepared
            vote := some "yes"
            prepared_at := some s0.clock })
    else
      let aid := od.local_account
      let delta := od.local_delta
      let amount := |delta|
      match acquire_write_lock tid aid polls s0 with
      | none => none
      | some (false, s1) => some ("no", abort_prepare s1 tid)
      | some (true, s1) =>
        match findAccount s1 aid with
        | none => some ("no", abort_prepare s1 tid)
        | some account =>
          if delta < 0 ∧ account.balance < amount then
            some ("no", abort_prepare s1 tid)
          else
            let s2 := log_prepare s1 tid account.balance (account.balance + delta)
            some ("yes",
              updateTx s2 tid fun t =>
                { t with
                  status := TransactionStatus.prepared
                  vote := some "yes"
                  prepared_at := some s2.clock })

/-- The `/api/prepare` endpoint (`app/api/participant.py`): catches every
exception from the service and answers vote `"no"`; the session is closed
without commit, so an escaped exception leaves the stored state unchanged. -/
def prepareEndpoint (s : NodeState) (tid ot : String) (od : OperationData)
    (polls : Nat) : String × NodeState :=
  match prepare_transaction s tid ot od polls with
  | some r => r
  | none => ("no", s)

/-- `ParticipantService.commit_transaction`.  Missing row or status other
than `PREPARED`: return silently.  The `scalar_one()` of `_apply_delta`
raising on a missing account is modelled as the rolled-back (unchanged)
state. -/
def commit_transaction (s : NodeState) (tid : String) : NodeState :=
  match findLocalTx s tid with
  | none => s
  | some t =>
    if t.status ≠ TransactionStatus.prepared then s
    else if t.operation_type == "transfer" then
      match findAccount s t.operation_data.local_account with
      | none => s
      | some _ =>
        let s1 := applyDelta s t.operation_data.local_account t.operation_data.local_delta
        let s2 := updateTx s1 tid fun u =>
          { u with status := TransactionStatus.committed, decided_at := some s1.clock }
        release_all_locks tid (log_commit s2 tid)
    else
      let s2 := updateTx s tid fun u =>
        { u with status := TransactionStatus.committed, decided_at := some s.clock }
      release_all_locks tid (log_commit s2 tid)

/-- `ParticipantService.abort_transaction`.  Missing row or terminal status:
return silently. -/
def abort_transaction (s : NodeState) (tid : String) : NodeState :=
  match findLocalTx s tid with
  | none => s
  | some t =>
    if t.status = TransactionStatus.committed ∨ t.status = TransactionStatus.aborted then s
    else
      let s2 := updateTx s tid fun u =>
        { u with status := TransactionStatus.aborted, decided_at := some s.clock }
      release_all_locks tid (log_abort s2 tid)

/-- One iteration of `RecoveryManager.recover`'s loop: the local
`abort(transaction_id)` path, an extra `release_all_locks`, and the
`recovery_abort` WAL row. -/
def recoverStep (s : NodeState) (tid : String) : NodeState :=
  log_recovery_abort (release_all_locks tid (abort_transaction s tid)) tid

/-- `RecoveryManager.recover`: on a participant, snapshot every
`LocalTransaction` of this node in `PREPARED` and run the conservative abort
on each; returns the new state and the recovered transaction ids. -/
def recover (s : NodeState) : NodeState × List String :=
  if s.node_role ≠ "participant" then (s, [])
  else
    let uncertain :=
      (s.local_txs.filter fun t =>
        t.node_id == s.node_id && t.status == TransactionStatus.prepared).map
        (fun t => t.transaction_id)
    (uncertain.foldl recoverStep s, uncertain)

/-- One externally invokable participant operation (`/api/prepare`,
`/api/commit`, `/api/abort`, recovery). -/
inductive NodeOp
  | prepare (transaction_id operation_type : String)
      (operation_data : OperationData) (polls : Nat)
  | commit (transaction_id : String)
  | abort (transaction_id : String)
  | recovery

def applyNodeOp (s : NodeState) : NodeOp → NodeState
  | NodeOp.prepare tid ot od polls => (prepareEndpoint s tid ot od polls).2
  | NodeOp.commit tid => commit_transaction s tid
  | NodeOp.abort tid => abort_transaction s tid
  | NodeOp.recovery => (recover s).1

def applyNodeOps (s : NodeState) (ops : List NodeOp) : NodeState :=
  ops.foldl applyNodeOp s

/-- The transfer payload of `GlobalTransaction.operation_data`
(`{from_account, to_account, amount, from_node, to_node}`). -/
structure TransferOperation where
  from_account : String
  to_account : String
  amount : Int
  from_node : String
  to_node : String
deriving DecidableEq

/-- The per-participant operation record built by
`CoordinatorService._derive_participant_operations`. -/
structure ParticipantOp where
  amount : Int
  account_id : String
  delta : Int
deriving DecidableEq

/-- Python-dict assignment `operations[url] = v`: replace the value of an
existing key in place, else append. -/
def dictInsert (k : String) (v : ParticipantOp) :
    List (String × ParticipantOp) → List (String × ParticipantOp)
  | [] => [(k, v)]
  | (k1, v1) :: rest =>
    if k1 = k then (k, v) :: rest else (k1, v1) :: dictInsert k v rest

/-- `CoordinatorService._derive_participant_operations`: a dict keyed by
participant URL; first the debit entry for `from_node`'s URL, then the
credit entry for `to_node`'s URL (overwriting the debit when both nodes
resolve to the same URL). `nodeUrl` stands for
`settings.nodes[node]["url"]`. -/
def derive_participant_operations (nodeUrl : String → String)
    (op : TransferOperation) : List (String × ParticipantOp) :=
  dictInsert (nodeUrl op.to_node)
    { amount := op.amount, account_id := op.to_account, delta := op.amount }
    (dictInsert (nodeUrl op.from_node)
      { amount := op.amount, account_id := op.from_account, delta := -op.amount }
      [])

/-- Outcome of one outbound 2PC HTTP call as seen through
`asyncio.gather(..., return_exceptions=True)`: an exception (network error
or timeout) or a response with a status code and an optional `vote` field in
its JSON body. -/
inductive CallResult
  | exn
  | response (status_code : Nat) (vote : Option String)
deriving DecidableEq

/-- The coordinator's vote tally for one participant
(`coordinator_service.py` lines 74-82): an exception or a status code other
than 200 counts as `"no"`; a 200 response contributes
`resp.json().get("vote", "no")`. -/
def tallyVote : CallResult → String
  | CallResult.exn => "no"
  | CallResult.response sc v => if sc ≠ 200 then "no" else v.getD "no"

/-- The coordinator-side fields of `DistributedTransaction` that
`execute_2pc` touches. -/
structure GlobalTx where
  status : TransactionStatus
  participant_votes : List (String × String)
  prepare_started_at : Option Nat := none
  decision_made_at : Option Nat := none
deriving DecidableEq

/-- Result of one `execute_2pc` run: the stored transaction row and the
sequence of `status` values persisted by the run's `db.commit()` calls. -/
structure Exec2pcResult where
  finalTx : Option GlobalTx
  statusWrites : List TransactionStatus
deriving DecidableEq

/-- `CoordinatorService.execute_2pc`.  `txOpt` is the `db.get` result;
`prepareResults` pairs each participant URL with its prepare-call outcome;
`decisionResults` are the decision-phase outcomes, which the code gathers
with `return_exceptions=True` and never reads. `now` is
`datetime.utcnow()` at the decision write. -/
def execute_2pc (txOpt : Option GlobalTx)
    (prepareResults : List (String × CallResult))
    (decisionResults : List (String × CallResult)) (now : Nat) : Exec2pcResult :=
  match txOpt, decisionResults with
  | none, _ => { finalTx := none, statusWrites := [] }
  | some tx, _ =>
    let votes := prepareResults.map fun ur => (ur.1, tallyVote ur.2)
    let allYes := votes.all fun uv => uv.2 == "yes"
    let deciding :=
      if allYes then TransactionStatus.committing else TransactionStatus.aborting
    let tx1 := { tx with participant_votes := votes, status := deciding }
    let finalStatus :=
      if allYes then TransactionStatus.committed else TransactionStatus.aborted
    let tx2 := { tx1 with status := finalStatus, decision_made_at := some now }
    { finalTx := some tx2, statusWrites := [deciding, finalStatus] }

/-- End-to-end transfer flow restricted to the participant states of a
single node: the coordinator derives the per-URL operations, each derived
operation is prepared on the node with the payload
`{local_account, local_delta}`, and the decision (commit on all-yes, abort
otherwise) is applied. -/
def runTransferOnNode (s : NodeState) (tid : String) (nodeUrl : String → String)
    (top : TransferOperation) : NodeState :=
  let ops := derive_participant_operations nodeUrl top
  let step := fun (acc : List String × NodeState) (kv : String × ParticipantOp) =>
    let r := prepareEndpoint acc.2 tid "transfer"
      { local_account := kv.2.account_id, local_delta := kv.2.delta } 1
    (acc.1 ++ [r.1], r.2)
  let prepared := ops.foldl step ([], s)
  if prepared.1.all fun v => v == "yes" then
    commit_transaction prepared.2 tid
  else
    abort_transaction prepared.2 tid

/-- Transaction `tid` holds an unreleased lock on resource `rid`. -/
def heldLock (s : NodeState) (tid rid : String) : Prop :=
  ∃ l ∈ s.locks, l.transaction_id = tid ∧ l.resource_id = rid ∧
    l.released_at = none

instance (s : NodeState) (tid rid : String) : Decidable (heldLock s tid rid) := by
  unfold heldLock
  infer_instance

/-- Well-formedness of one participant node's store: the rows belong to this
node, key-uniqueness constraints hold (`uq_account_node`,
`uq_local_transaction`), every `PREPARED` transfer still has its account
with enough balance for a debit and holds its write lock, at most one
unreleased lock exists per resource, every unreleased lock belongs to a
`PREPARED` transfer, WAL timestamps lie below the clock, every `PREPARED`
transfer has a `prepare` WAL row, and every `commit` WAL row of a transfer
transaction has an earlier `prepare` row.  `WF` holds in every state
reachable from an initial state and is preserved by every participant
operation. -/
structure WF (s : NodeState) : Prop where
  acc_node : ∀ a ∈ s.accounts, a.node_id = s.node_id
  acc_nonneg : ∀ a ∈ s.accounts, 0 ≤ a.balance
  acc_uniq : s.accounts.Pairwise fun a b => a.id ≠ b.id
  tx_node : ∀ t ∈ s.local_txs, t.node_id = s.node_id
  tx_uniq : s.local_txs.Pairwise fun t u => t.transaction_id ≠ u.transaction_id
  prepared_ok : ∀ t ∈ s.local_txs, t.status = TransactionStatus.prepared →
    t.operation_type = "transfer" →
    ∃ a ∈ s.accounts, a.id = t.operation_data.local_account ∧
      (t.operation_data.local_delta < 0 →
        -t.operation_data.local_delta ≤ a.balance) ∧
      heldLock s t.transaction_id t.operation_data.local_account
  lock_uniq : s.locks.Pairwise fun l m =>
    l.released_at = none → m.released_at = none → l.resource_id ≠ m.resource_id
  lock_owner : ∀ l ∈ s.locks, l.released_at = none →
    ∃ t ∈ s.local_txs, t.transaction_id = l.transaction_id ∧
      t.status = TransactionStatus.prepared ∧ t.operation_type = "transfer" ∧
      t.operation_data.local_account = l.resource_id
  wal_clock : ∀ w ∈ s.wal, w.created_at < s.clock
  prepared_log : ∀ t ∈ s.local_txs, t.status = TransactionStatus.prepared →
    t.operation_type = "transfer" →
    ∃ w ∈ s.wal, w.log_type = "prepare" ∧ w.transaction_id = t.transaction_id
  commit_tx : ∀ c ∈ s.wal, c.log_type = "commit" →
    ∃ t ∈ s.local_txs, t.transaction_id = c.transaction_id
  commit_log : ∀ c ∈ s.wal, c.log_type = "commit" →
    ∀ t ∈ s.local_txs, t.transaction_id = c.transaction_id →
    t.operation_type = "transfer" →
    ∃ p ∈ s.wal, p.log_type = "prepare" ∧ p.transaction_id = c.transaction_id ∧
      p.created_at < c.created_at

/-- A node state holding only seeded accounts: no transactions in flight,
no locks, empty WAL. -/
def initialState (s : NodeState) : Prop :=
  (∀ a ∈ s.accounts, a.node_id = s.node_id ∧ 0 ≤ a.balance) ∧
  s.accounts.Pairwise (fun a b => a.id ≠ b.id) ∧
  s.local_txs = [] ∧ s.locks = [] ∧ s.wal = []

instance (s : NodeState) : Decidable (initialState s) := by
  unfold initialState
  infer_instance

/-- Fixture: participant node `n1` seeded with accounts `X` (balance 100)
and `Y` (balance 0); no transactions in flight. -/
def nodeX : NodeState :=
  { node_id := "n1"
    node_role := "participant"
    accounts := [{ id := "X", balance := 100, node_id := "n1" },
                 { id := "Y", balance := 0, node_id := "n1" }]
    local_txs := []
    wal := []
    locks := []
    clock := 0 }

/-- Fixture: participant node `n1` with transaction `t1` in `PREPARED`
(a pending debit of 30 from `X`), its prepare WAL row and its
unreleased write lock on `X`. -/
def lockedNode : NodeState :=
  { node_id := "n1"
    node_role := "participant"
    accounts := [{ id := "X", balance := 100, node_id := "n1" }]
    local_txs := [{ transaction_id := "t1"
                    node_id := "n1"
                    status := TransactionStatus.prepared
                    vote := some "yes"
                    operation_type := "transfer"
                    operation_data := { local_account := "X", local_delta := -30 }
                    created_at := 0
                    prepared_at := some 0 }]
    wal := [{ transaction_id := "t1"
              node_id := "n1"
              log_type := "prepare"
              old_state := some 100
              new_state := some 70
              applied := false
              created_at := 0 }]
    locks := [{ resource_type := "account"
                resource_id := "X"
                node_id := "n1"
                lock_type := LockType.write
                transaction_id := "t1"
                acquired_at := 0
                released_at := none }]
    clock := 1 }

/-- Fixture: the same-node transfer of the spec's scenario 5
(amount 20 from `X` to `Y`, both on `n1`). -/
def sameNodeTransfer : TransferOperation :=
  { from_account := "X", to_account := "Y", amount := 20
    from_node := "n1", to_node := "n1" }

/-- Fixture: participant node `n1` seeded with account `A` (balance 100). -/
def nodeA : NodeState :=
  { node_id := "n1"
    node_role := "participant"
    accounts := [{ id := "A", balance := 100, node_id := "n1" }]
    local_txs := []
    wal := []
    locks := []
    clock := 0 }

/-- Fixture: participant node `n2` seeded with account `B` (balance 50). -/
def nodeB : NodeState :=
  { node_id := "n2"
    node_role := "participant"
    accounts := [{ id := "B", balance := 50, node_id := "n2" }]
    local_txs := []
    wal := []
    locks := []
    clock := 0 }

/-- Fixture: the distinct-node transfer of the spec's scenario 1
(amount 40 from `A` on `n1` to `B` on `n2`). -/
def transferAB : TransferOperation :=
  { from_account := "A", to_account := "B", amount := 40
    from_node := "n1", to_node := "n2" }

/-- Fixture: a fresh `GlobalTransaction` row as inserted by
`create_transfer` (`status=INIT`, no votes, no timestamps set). -/
def gtx0 : GlobalTx :=
  { status := TransactionStatus.init, participant_votes := [] }

theorem lockConflict_eq_false {s : NodeState} {rid : String}
    (h : lockConflict s rid = false) :
    ∀ l ∈ s.locks, l.released_at = none → l.resource_id ≠ rid := by
  intro l hl hrel hres
  have := List.any_eq_false.mp h l hl
  simp [hres, hrel, Option.isNone] at this

theorem acquire_conflict_fails (tid rid : String) (polls : Nat)
    (s : NodeState) (h : lockConflict s rid = true) :
    acquire_write_lock tid rid polls s = some (false, s) := by
  induction polls with
  | zero => rfl
  | succ n ih => simp [acquire_write_lock, h, ih]

theorem acquire_write_lock_spec (tid rid : String) (polls : Nat)
    (s : NodeState) :
    acquire_write_lock tid rid polls s = none ∨
    acquire_write_lock tid rid polls s = some (false, s) ∨
    (lockConflict s rid = false ∧
     acquire_write_lock tid rid polls s = some (true,
      { s with locks := s.locks ++
        [{ resource_type := "account", resource_id := rid,
           node_id := s.node_id, lock_type := LockType.write,
           transaction_id := tid, acquired_at := s.clock,
           released_at := none }] })) := by
  induction polls with
  | zero => right; left; rfl
  | succ n ih =>
    by_cases hc : lockConflict s rid = true
    · rcases ih with h | h | ⟨hfc, -⟩
      · left
        rw [acquire_write_lock, if_pos hc]
        exact h
      · right; left
        rw [acquire_write_lock, if_pos hc]
        exact h
      · rw [hfc] at hc
        cases hc
    · have hc' : lockConflict s rid = false := Bool.eq_false_iff.mpr hc
      by_cases hic : lockInsertConflict s rid = true
      · left
        rw [acquire_write_lock, if_neg hc, if_pos hic]
      · right; right
        refine ⟨hc', ?_⟩
        rw [acquire_write_lock, if_neg hc, if_neg hic]

theorem acquire_write_lock_shape {tid rid : String} {polls : Nat}
    {s s1 : NodeState} {b : Bool}
    (hacq : acquire_write_lock tid rid polls s = some (b, s1)) :
    s1 = s ∨
    s1 = { s with locks := s.locks ++
      [{ resource_type := "account", resource_id := rid,
         node_id := s.node_id, lock_type := LockType.write,
         transaction_id := tid, acquired_at := s.clock,
         released_at := none }] } := by
  rcases acquire_write_lock_spec tid rid polls s with h | h | ⟨-, h⟩
  · rw [h] at hacq
    exact Option.noConfusion hacq
  · rw [h] at hacq
    simp only [Option.some.injEq, Prod.mk.injEq] at hacq
    exact Or.inl hacq.2.symm
  · rw [h] at hacq
    simp only [Option.some.injEq, Prod.mk.injEq] at hacq
    exact Or.inr hacq.2.symm

theorem release_all_locks_inv {s : NodeState} (tid : String)
    (h : WriteLockInv s.locks) : WriteLockInv (release_all_locks tid s).locks := by
  unfold WriteLockInv at h ⊢
  simp only [release_all_locks]
  refine List.Pairwise.map _ ?_ h
  intro a b hab
  split <;> split <;> intro hw hw2 hra hrb <;> simp_all

theorem acquire_write_lock_inv {s : NodeState} (tid rid : String) (polls : Nat)
    (h : WriteLockInv s.locks) : ∀ b s1,
    acquire_write_lock tid rid polls s = some (b, s1) →
    WriteLockInv s1.locks := by
  intro b s1 hacq
  rcases acquire_write_lock_spec tid rid polls s with hsp | hsp | ⟨hc', hsp⟩
  · rw [hsp] at hacq
    exact Option.noConfusion hacq
  · rw [hsp] at hacq
    simp only [Option.some.injEq, Prod.mk.injEq] at hacq
    rw [← hacq.2]
    exact h
  · rw [hsp] at hacq
    simp only [Option.some.injEq, Prod.mk.injEq] at hacq
    rw [← hacq.2]
    have hnone := lockConflict_eq_false hc'
    unfold WriteLockInv at h ⊢
    dsimp only
    rw [List.pairwise_append]
    refine ⟨h, List.pairwise_singleton _ _, ?_⟩
    intro l hl m hm
    simp only [List.mem_singleton] at hm
    subst hm
    intro _ _ hrel _ hpair
    exact hnone l hl hrel hpair.1

theorem applyLockOps_inv {s : NodeState} (h : WriteLockInv s.locks)
    (ops : List LockOp) : WriteLockInv (applyLockOps s ops).locks := by
  induction ops generalizing s with
  | nil => exact h
  | cons op rest ih =>
    have hstep : WriteLockInv ((applyLockOp s op).locks) := by
      cases op with
      | acquire tid rid polls =>
        unfold applyLockOp
        dsimp only
        cases hacq : acquire_write_lock tid rid polls s with
        | none => exact h
        | some r => exact acquire_write_lock_inv tid rid polls h r.1 r.2 hacq
      | release tid => exact release_all_locks_inv tid h
    exact ih hstep

theorem pairwise_unique_of_mem {α : Type} {R : α → α → Prop}
    (hsymm : ∀ a b, R a b → R b a) :
    ∀ {l : List α}, l.Pairwise R → ∀ {a b}, a ∈ l → b ∈ l → ¬R a b → a = b := by
  intro l hl
  induction hl with
  | nil => intro a b ha _ _; cases ha
  | cons hx _ ih =>
    intro a b ha hb hnR
    rcases List.mem_cons.mp ha with rfl | ha2
    · rcases List.mem_cons.mp hb with rfl | hb2
      · rfl
      · exact absurd (hx b hb2) hnR
    · rcases List.mem_cons.mp hb with rfl | hb2
      · exact absurd (hsymm b a (hx a ha2)) hnR
      · exact ih ha2 hb2 hnR

theorem find?_map_if {α : Type} (l : List α) (p : α → Bool) (f : α → α)
    (hf : ∀ a, p (f a) = p a) :
    ((l.map fun a => if p a then f a else a).find? p) = (l.find? p).map f := by
  induction l with
  | nil => rfl
  | cons x xs ih =>
    by_cases hx : p x = true
    · simp [List.find?_cons, hx, hf]
    · have hx' : p x = false := by simpa using hx
      simp [List.find?_cons, hx', ih]

theorem map_id_of_forall {α : Type} {l : List α} {f : α → α}
    (h : ∀ a ∈ l, f a = a) : l.map f = l := by
  induction l with
  | nil => rfl
  | cons x xs ih =>
    simp only [List.map_cons]
    rw [h x (List.mem_cons_self x xs), ih fun a ha => h a (List.mem_cons_of_mem x ha)]

theorem findLocalTx_mem {s : NodeState} {tid : String} {t : LocalTransaction}
    (h : findLocalTx s tid = some t) :
    t ∈ s.local_txs ∧ t.transaction_id = tid ∧ t.node_id = s.node_id := by
  refine ⟨List.mem_of_find?_eq_some h, ?_⟩
  have := List.find?_some h
  simpa using this

theorem findLocalTx_eq_none {s : NodeState} {tid : String} :
    findLocalTx s tid = none ↔
    ∀ t ∈ s.local_txs, ¬(t.transaction_id = tid ∧ t.node_id = s.node_id) := by
  constructor
  · intro h t ht hc
    have := List.find?_eq_none.mp h t ht
    simp [hc.1, hc.2] at this
  · intro h
    apply List.find?_eq_none.mpr
    intro t ht
    have := h t ht
    simp only [not_and] at this
    by_cases h1 : t.transaction_id = tid
    · simp [h1, this h1]
    · simp [h1]

theorem findAccount_mem {s : NodeState} {aid : String} {a : Account}
    (h : findAccount s aid = some a) :
    a ∈ s.accounts ∧ a.id = aid ∧ a.node_id = s.node_id := by
  refine ⟨List.mem_of_find?_eq_some h, ?_⟩
  have := List.find?_some h
  simpa using this

theorem findLocalTx_isSome_of_mem {s : NodeState} {tid : String}
    {t : LocalTransaction} (ht : t ∈ s.local_txs) (h1 : t.transaction_id = tid)
    (h2 : t.node_id = s.node_id) : (findLocalTx s tid).isSome := by
  unfold findLocalTx
  rw [List.find?_isSome]
  exact ⟨t, ht, by simp [h1, h2]⟩

theorem findLocalTx_updateTx_self {s : NodeState} {tid : String}
    {t : LocalTransaction} (hf : findLocalTx s tid = some t)
    (f : LocalTransaction → LocalTransaction)
    (hid : ∀ u, (f u).transaction_id = u.transaction_id)
    (hnode : ∀ u, (f u).node_id = u.node_id) :
    ∀ s2 : NodeState, s2.local_txs = (updateTx s tid f).local_txs →
    s2.node_id = s.node_id → findLocalTx s2 tid = some (f t) := by
  intro s2 h1 h2
  unfold findLocalTx
  rw [h2, h1]
  simp only [updateTx]
  rw [find?_map_if s.local_txs _ f fun a => by rw [hid a, hnode a]]
  rw [show List.find? _ s.local_txs = some t from hf]
  rfl

theorem commit_noop {s : NodeState} {tid : String}
    (h : ∀ t, findLocalTx s tid = some t → t.status ≠ TransactionStatus.prepared) :
    commit_transaction s tid = s := by
  unfold commit_transaction
  cases hf : findLocalTx s tid with
  | none => rfl
  | some t => simp [h t hf]

theorem abort_noop {s : NodeState} {tid : String}
    (h : ∀ t, findLocalTx s tid = some t → t.status = TransactionStatus.committed ∨
      t.status = TransactionStatus.aborted) :
    abort_transaction s tid = s := by
  unfold abort_transaction
  cases hf : findLocalTx s tid with
  | none => rfl
  | some t => simp [h t hf]

theorem findLocalTx_after_commit {s : NodeState} {tid : String}
    {t : LocalTransaction} (hf : findLocalTx s tid = some t)
    (hp : t.status = TransactionStatus.prepared) :
    commit_transaction s tid = s ∨
    ∃ u, findLocalTx (commit_transaction s tid) tid = some u ∧
      u.status = TransactionStatus.committed := by
  unfold commit_transaction
  rw [hf]
  simp only [hp]
  rw [if_neg fun h => h rfl]
  by_cases hot : (t.operation_type == "transfer") = true
  · rw [if_pos hot]
    cases ha : findAccount s t.operation_data.local_account with
    | none => left; rfl
    | some a =>
      right
      exact ⟨_, findLocalTx_updateTx_self hf
        (fun u => { u with status := TransactionStatus.committed, decided_at := some s.clock })
        (fun u => rfl) (fun u => rfl) _ rfl rfl, rfl⟩
  · rw [if_neg hot]
    right
    exact ⟨_, findLocalTx_updateTx_self hf
      (fun u => { u with status := TransactionStatus.committed, decided_at := some s.clock })
      (fun u => rfl) (fun u => rfl) _ rfl rfl, rfl⟩

theorem findLocalTx_after_abort {s : NodeState} {tid : String}
    {t : LocalTransaction} (hf : findLocalTx s tid = some t)
    (hp : ¬(t.status = TransactionStatus.committed ∨
      t.status = TransactionStatus.aborted)) :
    ∃ u, findLocalTx (abort_transaction s tid) tid = some u ∧
      u.status = TransactionStatus.aborted := by
  unfold abort_transaction
  rw [hf]
  simp only [hp, if_false]
  exact ⟨_, findLocalTx_updateTx_self hf
    (fun u => { u with status := TransactionStatus.aborted, decided_at := some s.clock })
    (fun u => rfl) (fun u => rfl) _ rfl rfl, rfl⟩

theorem commit_commit (s : NodeState) (tid : String) :
    commit_transaction (commit_transaction s tid) tid = commit_transaction s tid := by
  cases hf : findLocalTx s tid with
  | none =>
    have h0 : commit_transaction s tid = s :=
      commit_noop fun t ht => by rw [hf] at ht; cases ht
    rw [h0]
    exact h0
  | some t =>
    by_cases hp : t.status = TransactionStatus.prepared
    · rcases findLocalTx_after_commit hf hp with h0 | ⟨u, hu, hcu⟩
      · rw [h0]
        exact h0
      · apply commit_noop
        intro v hv
        rw [hu] at hv
        cases hv
        simp [hcu]
    · have h0 : commit_transaction s tid = s :=
        commit_noop fun v hv => by rw [hf] at hv; cases hv; exact hp
      rw [h0]
      exact h0

theorem abort_abort (s : NodeState) (tid : String) :
    abort_transaction (abort_transaction s tid) tid = abort_transaction s tid := by
  cases hf : findLocalTx s tid with
  | none =>
    have h0 : abort_transaction s tid = s :=
      abort_noop fun t ht => by rw [hf] at ht; cases ht
    rw [h0]
    exact h0
  | some t =>
    by_cases hp : t.status = TransactionStatus.committed ∨
        t.status = TransactionStatus.aborted
    · have h0 : abort_transaction s tid = s :=
        abort_noop fun v hv => by rw [hf] at hv; cases hv; exact hp
      rw [h0]
      exact h0
    · obtain ⟨u, hu, hau⟩ := findLocalTx_after_abort hf hp
      apply abort_noop
      intro v hv
      rw [hu] at hv
      cases hv
      simp [hau]

/-- C9: at most one unreleased WRITE lock row exists per
`(resource_id, node_id)`: `acquire_write_lock` inserts a row only when no
unreleased row for the resource exists (an insert violating
`uq_lock_resource` raises instead and is rolled back, leaving the state
unchanged) and `release_all_locks` only sets `released_at`, so every
sequence of acquire and release operations preserves the invariant. -/
theorem C9_at_most_one_write_lock (s : NodeState) (h : WriteLockInv s.locks)
    (ops : List LockOp) : WriteLockInv (applyLockOps s ops).locks :=
  applyLockOps_inv h ops

theorem C9_at_most_one_write_lock_witness :
    WriteLockInv nodeX.locks ∧
    WriteLockInv (applyLockOps nodeX
      [LockOp.acquire "t1" "X" 1, LockOp.acquire "t2" "X" 1,
       LockOp.release "t1", LockOp.acquire "t2" "Y" 1]).locks :=
  ⟨by decide, C9_at_most_one_write_lock nodeX (by decide)
    [LockOp.acquire "t1" "X" 1, LockOp.acquire "t2" "X" 1,
     LockOp.release "t1", LockOp.acquire "t2" "Y" 1]⟩

/-- C10: `acquire_write_lock` does not recognize the caller's own lock: if
`tid` already holds an unreleased lock on `rid`, a second acquire by the
same transaction sees a conflict on every poll, fails after the poll budget
elapses, and inserts no lock row (the state is returned unchanged). -/
theorem C10_acquire_not_reentrant (s : NodeState) (tid rid : String)
    (polls : Nat)
    (h : ∃ l ∈ s.locks, l.transaction_id = tid ∧ l.resource_id = rid ∧
      l.released_at = none) :
    acquire_write_lock tid rid polls s = some (false, s) := by
  obtain ⟨l, hl, -, hres, hrel⟩ := h
  have hc : lockConflict s rid = true := by
    unfold lockConflict
    rw [List.any_eq_true]
    exact ⟨l, hl, by simp [hres, hrel]⟩
  exact acquire_conflict_fails tid rid polls s hc

theorem C10_acquire_not_reentrant_witness :
    (∃ l ∈ lockedNode.locks, l.transaction_id = "t1" ∧ l.resource_id = "X" ∧
      l.released_at = none) ∧
    acquire_write_lock "t1" "X" 30 lockedNode = some (false, lockedNode) :=
  ⟨by decide, C10_acquire_not_reentrant lockedNode "t1" "X" 30 (by decide)⟩

/-- C7: `commit_transaction` is a no-op when the local transaction is absent
or not `PREPARED`; `abort_transaction` is a no-op when the row is absent or
already terminal; and repeating commit after a commit, or abort after an
abort, leaves the state unchanged. -/
theorem C7_commit_abort_idempotent (s : NodeState) (tid : String) :
    ((∀ t, findLocalTx s tid = some t →
        t.status ≠ TransactionStatus.prepared) →
      commit_transaction s tid = s) ∧
    ((∀ t, findLocalTx s tid = some t →
        t.status = TransactionStatus.committed ∨
        t.status = TransactionStatus.aborted) →
      abort_transaction s tid = s) ∧
    commit_transaction (commit_transaction s tid) tid =
      commit_transaction s tid ∧
    abort_transaction (abort_transaction s tid) tid = abort_transaction s tid :=
  ⟨fun h => commit_noop h, fun h => abort_noop h,
   commit_commit s tid, abort_abort s tid⟩

theorem C7_commit_abort_idempotent_witness :
    commit_transaction nodeX "t9" = nodeX ∧ abort_transaction nodeX "t9" = nodeX := by
  have h := C7_commit_abort_idempotent nodeX "t9"
  have hn : findLocalTx nodeX "t9" = none := by decide
  refine ⟨?_, ?_⟩
  · exact h.1 fun t ht => by rw [hn] at ht; cases ht
  · exact h.2.1 fun t ht => by rw [hn] at ht; cases ht

theorem release_all_locks_releases (s : NodeState) (tid : String) :
    ∀ l ∈ (release_all_locks tid s).locks, l.transaction_id = tid →
      l.released_at ≠ none := by
  intro l hl htid hrel
  simp only [release_all_locks, List.mem_map] at hl
  obtain ⟨l0, hl0, heq⟩ := hl
  by_cases hc : (l0.transaction_id == tid && l0.released_at.isNone) = true
  · rw [if_pos hc] at heq
    rw [← heq] at hrel
    simp at hrel
  · rw [if_neg hc] at heq
    subst heq
    apply hc
    rw [Bool.and_eq_true, beq_iff_eq, Option.isNone_iff_eq_none]
    exact ⟨htid, hrel⟩

theorem findLocalTx_of_txs_append {s1 s : NodeState} {tid : String}
    {tx0 : LocalTransaction} (h1 : s1.local_txs = s.local_txs ++ [tx0])
    (h2 : s1.node_id = s.node_id) (hfresh : findLocalTx s tid = none)
    (ht : tx0.transaction_id = tid) (hn : tx0.node_id = s.node_id) :
    findLocalTx s1 tid = some tx0 := by
  unfold findLocalTx at hfresh ⊢
  rw [h2, h1, List.find?_append, hfresh]
  simp [ht, hn]

theorem prepare_transaction_fresh {s : NodeState} {tid : String}
    {od : OperationData} {polls : Nat} (hfresh : findLocalTx s tid = none) :
    prepare_transaction s tid "transfer" od polls = none ∨
    (∃ s2, prepare_transaction s tid "transfer" od polls = some ("yes", s2)) ∨
    (∃ s1, prepare_transaction s tid "transfer" od polls =
        some ("no", abort_prepare s1 tid) ∧
      s1.local_txs = s.local_txs ++ [pendingTx s tid "transfer" od] ∧
      s1.node_id = s.node_id) := by
  unfold prepare_transaction
  simp only [hfresh, Option.isSome_none, Bool.false_eq_true, if_false,
    ne_eq, not_true_eq_false]
  rcases hacq : acquire_write_lock tid od.local_account polls
      { s with local_txs := s.local_txs ++ [pendingTx s tid "transfer" od] }
    with - | ⟨flag, s1⟩
  · left
    rfl
  · have hshape := acquire_write_lock_shape hacq
    have hs1txs : s1.local_txs = s.local_txs ++ [pendingTx s tid "transfer" od] := by
      rcases hshape with h | h <;> rw [show s1 = _ from h]
    have hs1node : s1.node_id = s.node_id := by
      rcases hshape with h | h <;> rw [show s1 = _ from h]
    cases flag with
    | false =>
      right; right
      exact ⟨s1, rfl, hs1txs, hs1node⟩
    | true =>
      dsimp only
      cases ha : findAccount s1 od.local_account with
      | none =>
        right; right
        exact ⟨s1, rfl, hs1txs, hs1node⟩
      | some account =>
        dsimp only
        by_cases hbal : od.local_delta < 0 ∧ account.balance < |od.local_delta|
        · right; right
          rw [if_pos hbal]
          exact ⟨s1, rfl, hs1txs, hs1node⟩
        · right; left
          rw [if_neg hbal]
          exact ⟨_, rfl⟩

/-- C5 (amended): every prepare invocation that fails answers vote `"no"`.
Abort-prepare runs only on the in-service failure paths (lock-acquisition
timeout, missing account, insufficient funds), i.e. exactly when the
service completes without an exception and votes `"no"`: then the
`LocalTransaction` ends `ABORTED` with vote `"no"` and every lock of the
transaction is released.  An exception that escapes the service — the
duplicate-`transaction_id` IntegrityError at `db.flush()`, or the
`uq_lock_resource` IntegrityError raised by the lock insert when any (even
released) lock row for the account exists — is caught at the API layer and
also answered `"no"`, but the session is rolled back: the stored state is
unchanged and no `ABORTED` row is written. -/
theorem C5_prepare_failure_paths (s : NodeState) (tid : String)
    (od : OperationData) (polls : Nat) :
    ((findLocalTx s tid).isSome →
      prepareEndpoint s tid "transfer" od polls = ("no", s)) ∧
    (prepare_transaction s tid "transfer" od polls = none →
      prepareEndpoint s tid "transfer" od polls = ("no", s)) ∧
    (findLocalTx s tid = none →
      prepare_transaction s tid "transfer" od polls ≠ none →
      (prepareEndpoint s tid "transfer" od polls).1 = "no" →
      ∃ u, findLocalTx (prepareEndpoint s tid "transfer" od polls).2 tid =
          some u ∧
        u.status = TransactionStatus.aborted ∧ u.vote = some "no" ∧
        ∀ l ∈ (prepareEndpoint s tid "transfer" od polls).2.locks,
          l.transaction_id = tid → l.released_at ≠ none) := by
  refine ⟨?_, ?_, ?_⟩
  · intro hdup
    unfold prepareEndpoint prepare_transaction
    simp [hdup]
  · intro hexc
    unfold prepareEndpoint
    rw [hexc]
  · intro hfresh hexc hno
    rcases @prepare_transaction_fresh s tid od polls hfresh
      with hnone | ⟨s2, hy⟩ | ⟨s1, hn, htxs, hnode⟩
    · exact absurd hnone hexc
    · rw [show prepareEndpoint s tid "transfer" od polls = ("yes", s2) by
        unfold prepareEndpoint; rw [hy]] at hno
      have hne : ("yes" : String) ≠ "no" := by decide
      exact absurd hno hne
    · rw [show prepareEndpoint s tid "transfer" od polls =
          ("no", abort_prepare s1 tid) by
        unfold prepareEndpoint; rw [hn]] at hno ⊢
      have hf1 : findLocalTx s1 tid = some (pendingTx s tid "transfer" od) :=
        findLocalTx_of_txs_append htxs hnode hfresh rfl rfl
      refine ⟨_, findLocalTx_updateTx_self hf1
        (fun u => { u with status := TransactionStatus.aborted, vote := some "no" })
        (fun u => rfl) (fun u => rfl) _ rfl rfl, rfl, rfl, ?_⟩
      exact release_all_locks_releases _ tid

theorem C5_prepare_failure_paths_witness :
    (∃ u, findLocalTx
        (prepareEndpoint nodeX "t1" "transfer"
          { local_account := "Z", local_delta := -10 } 1).2 "t1" = some u ∧
      u.status = TransactionStatus.aborted ∧ u.vote = some "no") ∧
    prepareEndpoint lockedNode "t1" "transfer"
      { local_account := "X", local_delta := -30 } 3 = ("no", lockedNode) := by
  obtain ⟨-, -, h2⟩ := C5_prepare_failure_paths nodeX "t1"
    { local_account := "Z", local_delta := -10 } 1
  obtain ⟨u, hu, ha, hv, -⟩ := h2 (by decide) (by decide) (by decide)
  refine ⟨⟨u, hu, ha, hv⟩, ?_⟩
  obtain ⟨-, hd, -⟩ := C5_prepare_failure_paths lockedNode "t1"
    { local_account := "X", local_delta := -30 } 3
  exact hd (by decide)

/-- C5 (counterexamples to the claim as stated).  First: at a node where
`t1` is already `PREPARED` and holds its lock, a second prepare of `t1`
raises the unique-constraint exception; the endpoint answers `"no"` but the
state is returned unchanged: the `LocalTransaction` does not end `ABORTED`
and the lock stays unreleased.  Second: after a completed transfer on `X`
(whose lock row is released but still stored), a fresh prepare debiting `X`
hits the `uq_lock_resource` IntegrityError at the lock insert; the endpoint
answers `"no"` with the state unchanged, so no `ABORTED` row for the new
transaction is persisted. -/
theorem C5_counterexample_exception_keeps_prepared :
    (prepareEndpoint lockedNode "t1" "transfer"
      { local_account := "X", local_delta := -30 } 3 = ("no", lockedNode) ∧
    (findLocalTx lockedNode "t1").map LocalTransaction.status =
      some TransactionStatus.prepared ∧
    (findLocalTx lockedNode "t1").map LocalTransaction.status ≠
      some TransactionStatus.aborted ∧
    (∃ l ∈ lockedNode.locks, l.transaction_id = "t1" ∧
      l.released_at = none)) ∧
    (prepareEndpoint (applyNodeOps nodeX
        [NodeOp.prepare "t1" "transfer"
          { local_account := "X", local_delta := -30 } 1,
         NodeOp.commit "t1"]) "t2" "transfer"
        { local_account := "X", local_delta := -10 } 3 =
      ("no", applyNodeOps nodeX
        [NodeOp.prepare "t1" "transfer"
          { local_account := "X", local_delta := -30 } 1,
         NodeOp.commit "t1"]) ∧
    findLocalTx (applyNodeOps nodeX
        [NodeOp.prepare "t1" "transfer"
          { local_account := "X", local_delta := -30 } 1,
         NodeOp.commit "t1"]) "t2" = none ∧
    (∃ l ∈ (applyNodeOps nodeX
        [NodeOp.prepare "t1" "transfer"
          { local_account := "X", local_delta := -30 } 1,
         NodeOp.commit "t1"]).locks, l.resource_id = "X" ∧
      l.released_at ≠ none)) := by
  decide

/-- C1 (evaluation at the failing input): for the same-node transfer of
scenario 5 (amount 20 from `X` balance 100 to `Y` balance 0, both on `n1`)
the dict built by `_derive_participant_operations` keeps only the credit
entry, the global transaction commits, and the node ends with `X = 100`
(not 80) and `Y = 20`: the debit is never applied.  For the distinct-node
transfer of scenario 1 each owning node applies its delta once
(`A`: 100 → 60 on `n1`, `B`: 50 → 90 on `n2`). -/
theorem C1_same_node_transfer_loses_debit :
    (derive_participant_operations (fun _ => "u1") sameNodeTransfer).length = 1 ∧
    (derive_participant_operations (fun _ => "u1") sameNodeTransfer) =
      [("u1", { amount := 20, account_id := "Y", delta := 20 })] ∧
    (findAccount (runTransferOnNode nodeX "t1" (fun _ => "u1") sameNodeTransfer)
      "X").map Account.balance = some 100 ∧
    (findAccount (runTransferOnNode nodeX "t1" (fun _ => "u1") sameNodeTransfer)
      "Y").map Account.balance = some 20 ∧
    (findLocalTx (runTransferOnNode nodeX "t1" (fun _ => "u1") sameNodeTransfer)
      "t1").map LocalTransaction.status = some TransactionStatus.committed ∧
    derive_participant_operations (fun n => n) transferAB =
      [("n1", { amount := 40, account_id := "A", delta := -40 }),
       ("n2", { amount := 40, account_id := "B", delta := 40 })] ∧
    (findAccount (commit_transaction
      (prepareEndpoint nodeA "t2" "transfer"
        { local_account := "A", local_delta := -40 } 1).2 "t2")
      "A").map Account.balance = some 60 ∧
    (findAccount (commit_transaction
      (prepareEndpoint nodeB "t2" "transfer"
        { local_account := "B", local_delta := 40 } 1).2 "t2")
      "B").map Account.balance = some 90 := by
  decide

/-- C2 (counterexample to the claim as stated): a prepare response with the
2xx status code 204 and body vote `"yes"` is recorded as `"no"`, because the
code tests `status_code != 200`, not non-2xx. -/
theorem C2_counterexample_204_recorded_no :
    (execute_2pc (some gtx0) [("u1", CallResult.response 204 (some "yes"))]
      [] 0).finalTx.map GlobalTx.participant_votes = some [("u1", "no")] ∧
    200 ≤ 204 ∧ 204 < 300 ∧ ("no" : String) ≠ "yes" := by
  decide

/-- C2 (amended): an exception (network error or timeout) or any status
code other than exactly 200 — including other 2xx codes — is recorded as
vote `"no"`; a 200 response is recorded with the `vote` field of its body
(missing field defaulting to `"no"`); the per-URL votes are persisted; the
status is set to COMMITTING when every recorded vote is `"yes"` and to
ABORTING otherwise; and the final status reaches COMMITTED (respectively
ABORTED) with `decision_made_at` set, independently of the decision-phase
outcomes. -/
theorem C2_execute_2pc_decision (tx : GlobalTx)
    (prs decs : List (String × CallResult)) (now : Nat) :
    ∃ gt, (execute_2pc (some tx) prs decs now).finalTx = some gt ∧
      gt.participant_votes = prs.map (fun ur => (ur.1, tallyVote ur.2)) ∧
      tallyVote CallResult.exn = "no" ∧
      (∀ sc v, sc ≠ 200 → tallyVote (CallResult.response sc v) = "no") ∧
      (∀ v, tallyVote (CallResult.response 200 v) = v.getD "no") ∧
      gt.decision_made_at = some now ∧
      (((prs.map fun ur => (ur.1, tallyVote ur.2)).all
          fun uv => uv.2 == "yes") = true →
        gt.status = TransactionStatus.committed ∧
        (execute_2pc (some tx) prs decs now).statusWrites =
          [TransactionStatus.committing, TransactionStatus.committed]) ∧
      (((prs.map fun ur => (ur.1, tallyVote ur.2)).all
          fun uv => uv.2 == "yes") = false →
        gt.status = TransactionStatus.aborted ∧
        (execute_2pc (some tx) prs decs now).statusWrites =
          [TransactionStatus.aborting, TransactionStatus.aborted]) := by
  simp only [execute_2pc]
  by_cases hb : ((prs.map fun ur => (ur.1, tallyVote ur.2)).all
      fun uv => uv.2 == "yes") = true
  · rw [if_pos hb, if_pos hb]
    refine ⟨_, rfl, rfl, rfl, ?_, ?_, rfl, ?_, ?_⟩
    · intro sc v hsc
      simp [tallyVote, hsc]
    · intro v
      simp [tallyVote]
    · intro _
      exact ⟨rfl, rfl⟩
    · intro hfalse
      rw [hb] at hfalse
      exact absurd hfalse (by decide)
  · have hb' : ((prs.map fun ur => (ur.1, tallyVote ur.2)).all
        fun uv => uv.2 == "yes") = false := Bool.eq_false_iff.mpr hb
    rw [if_neg hb, if_neg hb]
    refine ⟨_, rfl, rfl, rfl, ?_, ?_, rfl, ?_, ?_⟩
    · intro sc v hsc
      simp [tallyVote, hsc]
    · intro v
      simp [tallyVote]
    · intro htrue
      rw [hb'] at htrue
      exact absurd htrue (by decide)
    · intro _
      exact ⟨rfl, rfl⟩

theorem C2_execute_2pc_decision_witness :
    (execute_2pc (some gtx0)
      [("u1", CallResult.response 200 (some "yes")), ("u2", CallResult.exn)]
      [("u1", CallResult.exn)] 3).finalTx.map GlobalTx.status =
      some TransactionStatus.aborted := by
  obtain ⟨gt, h1, h2, -, -, -, -, -, hno⟩ := C2_execute_2pc_decision gtx0
    [("u1", CallResult.response 200 (some "yes")), ("u2", CallResult.exn)]
    [("u1", CallResult.exn)] 3
  rw [h1]
  have hst := (hno (by decide)).1
  simp [hst]

/-- C4 (counterexample to the claim as stated): on a concrete run over an
existing `INIT` transaction, the persisted statuses are exactly
`[COMMITTING, COMMITTED]` — the status never passes through `PREPARING` —
and `prepare_started_at` is still unset at the end. -/
theorem C4_counterexample_no_preparing_write :
    (execute_2pc (some gtx0) [("u1", CallResult.response 200 (some "yes"))]
      [] 7).statusWrites =
      [TransactionStatus.committing, TransactionStatus.committed] ∧
    TransactionStatus.preparing ∉
      (execute_2pc (some gtx0) [("u1", CallResult.response 200 (some "yes"))]
        [] 7).statusWrites ∧
    (execute_2pc (some gtx0) [("u1", CallResult.response 200 (some "yes"))]
      [] 7).finalTx.map GlobalTx.prepare_started_at = some none := by
  decide

/-- C4 (amended): `execute_2pc` never writes a `PREPARING` status and never
sets `prepare_started_at`: it issues the prepare calls with the stored row
untouched, and the persisted statuses of a run on an existing transaction
are exactly the decision write (COMMITTING or ABORTING) followed by the
matching terminal write; `prepare_started_at` is returned unchanged. -/
theorem C4_no_preparing_phase (tx : GlobalTx)
    (prs decs : List (String × CallResult)) (now : Nat) :
    ((execute_2pc (some tx) prs decs now).statusWrites =
      [TransactionStatus.committing, TransactionStatus.committed] ∨
     (execute_2pc (some tx) prs decs now).statusWrites =
      [TransactionStatus.aborting, TransactionStatus.aborted]) ∧
    TransactionStatus.preparing ∉
      (execute_2pc (some tx) prs decs now).statusWrites ∧
    (execute_2pc (some tx) prs decs now).finalTx.map GlobalTx.prepare_started_at =
      some tx.prepare_started_at ∧
    (execute_2pc none prs decs now).statusWrites = [] := by
  simp only [execute_2pc]
  by_cases hb : ((prs.map fun ur => (ur.1, tallyVote ur.2)).all
      fun uv => uv.2 == "yes") = true
  · rw [if_pos hb, if_pos hb]
    refine ⟨Or.inl rfl, by decide, ?_, ?_⟩ <;> trivial
  · rw [if_neg hb, if_neg hb]
    refine ⟨Or.inr rfl, by decide, ?_, ?_⟩ <;> trivial

theorem C4_no_preparing_phase_witness :
    TransactionStatus.preparing ∉
      (execute_2pc (some gtx0) [("u1", CallResult.exn)] [] 5).statusWrites :=
  (C4_no_preparing_phase gtx0 [("u1", CallResult.exn)] [] 5).2.1

theorem mem_map_unchanged {α : Type} {l : List α} {f : α → α} {a : α}
    (ha : a ∈ l) (h : f a = a) : a ∈ l.map f :=
  h ▸ List.mem_map_of_mem f ha

theorem pairwise_map_key {α β : Type} {key : α → β} {f : α → α}
    (hk : ∀ a, key (f a) = key a) {l : List α}
    (h : l.Pairwise fun a b => key a ≠ key b) :
    (l.map f).Pairwise fun a b => key a ≠ key b :=
  List.Pairwise.map f (fun a b hab => by rw [hk a, hk b]; exact hab) h

theorem releaseIf_unreleased {tid : String} {time : Nat} (l : Lock)
    (h : (if (l.transaction_id == tid && l.released_at.isNone) = true
          then { l with released_at := some time } else l).released_at = none) :
    (if (l.transaction_id == tid && l.released_at.isNone) = true
      then { l with released_at := some time } else l) = l ∧
    l.released_at = none ∧ l.transaction_id ≠ tid := by
  by_cases hc : (l.transaction_id == tid && l.released_at.isNone) = true
  · rw [if_pos hc] at h
    simp at h
  · rw [if_neg hc] at h ⊢
    refine ⟨rfl, h, ?_⟩
    intro htid
    apply hc
    rw [Bool.and_eq_true, beq_iff_eq, Option.isNone_iff_eq_none]
    exact ⟨htid, h⟩

theorem lock_uniq_release {s : NodeState} {tid : String} {time : Nat}
    (h : s.locks.Pairwise fun l m => l.released_at = none →
      m.released_at = none → l.resource_id ≠ m.resource_id) :
    (s.locks.map fun l =>
      if (l.transaction_id == tid && l.released_at.isNone) = true
      then { l with released_at := some time } else l).Pairwise
      fun l m => l.released_at = none → m.released_at = none →
        l.resource_id ≠ m.resource_id := by
  refine List.Pairwise.map _ ?_ h
  intro a b hab hra hrb
  obtain ⟨ea, ha0, -⟩ := releaseIf_unreleased a hra
  obtain ⟨eb, hb0, -⟩ := releaseIf_unreleased b hrb
  rw [ea, eb]
  exact hab ha0 hb0

theorem lock_mem_keep {tid : String} {time : Nat}
    {locks : List Lock} {l : Lock} (hl : l ∈ locks) (hne : l.transaction_id ≠ tid) :
    l ∈ locks.map fun m =>
      if (m.transaction_id == tid && m.released_at.isNone) = true
      then { m with released_at := some time } else m := by
  refine mem_map_unchanged hl ?_
  rw [if_neg]
  intro hc
  rw [Bool.and_eq_true, beq_iff_eq] at hc
  exact hne hc.1

/-- The two distinct-element uniqueness consequences of `WF`. -/
theorem WF_tx_eq {s : NodeState} (hWF : WF s) {t u : LocalTransaction}
    (ht : t ∈ s.local_txs) (hu : u ∈ s.local_txs)
    (h : t.transaction_id = u.transaction_id) : t = u :=
  pairwise_unique_of_mem (R := fun a b : LocalTransaction =>
      a.transaction_id ≠ b.transaction_id)
    (fun a b hab => fun hba => hab hba.symm) hWF.tx_uniq ht hu
    (fun hne => hne h)

theorem WF_acc_eq {s : NodeState} (hWF : WF s) {a b : Account}
    (ha : a ∈ s.accounts) (hb : b ∈ s.accounts) (h : a.id = b.id) : a = b :=
  pairwise_unique_of_mem (R := fun x y : Account => x.id ≠ y.id)
    (fun x y hxy => fun hyx => hxy hyx.symm) hWF.acc_uniq ha hb
    (fun hne => hne h)

theorem WF_lock_eq {s : NodeState} (hWF : WF s) {l m : Lock}
    (hl : l ∈ s.locks) (hm : m ∈ s.locks) (hlr : l.released_at = none)
    (hmr : m.released_at = none) (h : l.resource_id = m.resource_id) : l = m :=
  pairwise_unique_of_mem (R := fun x y : Lock => x.released_at = none →
      y.released_at = none → x.resource_id ≠ y.resource_id)
    (fun x y hxy => fun h1 h2 hres => hxy h2 h1 hres.symm) hWF.lock_uniq hl hm
    (fun hR => hR hlr hmr h)

/-- WF is preserved by the common terminalization shape shared by
`abort_transaction` and the non-transfer branch of `commit_transaction`:
rewrite the transaction's status to a non-`PREPARED` status, append one WAL
row, release the transaction's locks. -/
theorem WF_finalize {s : NodeState} (tid : String) (hWF : WF s)
    (st : TransactionStatus) (lt : String) (hst : st ≠ TransactionStatus.prepared)
    (hcl : lt = "commit" →
      (∃ t ∈ s.local_txs, t.transaction_id = tid) ∧
      (∀ t ∈ s.local_txs, t.transaction_id = tid →
        t.operation_type ≠ "transfer")) :
    WF (release_all_locks tid
      (appendLog (updateTx s tid fun u =>
        { u with status := st, decided_at := some s.clock }) tid lt none none
        true)) := by
  have hpt : ∀ t ∈ s.local_txs,
      ((t.transaction_id == tid && t.node_id == s.node_id) = true) ↔
      t.transaction_id = tid := by
    intro t ht
    simp [Bool.and_eq_true, beq_iff_eq, hWF.tx_node t ht]
  constructor
  · exact hWF.acc_node
  · exact hWF.acc_nonneg
  · exact hWF.acc_uniq
  · intro u hu
    obtain ⟨t, ht, hEq⟩ := List.mem_map.mp hu
    have hn := hWF.tx_node t ht
    by_cases hc : (t.transaction_id == tid && t.node_id == s.node_id) = true
    · rw [if_pos hc] at hEq
      rw [← hEq]
      exact hn
    · rw [if_neg hc] at hEq
      rw [← hEq]
      exact hn
  · exact pairwise_map_key (fun t => by
      by_cases hc : (t.transaction_id == tid && t.node_id == s.node_id) = true
      · rw [if_pos hc]
      · rw [if_neg hc]) hWF.tx_uniq
  · intro u hu hup hutr
    obtain ⟨t, ht, hEq⟩ := List.mem_map.mp hu
    by_cases hc : (t.transaction_id == tid && t.node_id == s.node_id) = true
    · rw [if_pos hc] at hEq
      rw [← hEq] at hup
      exact absurd hup hst
    · rw [if_neg hc] at hEq
      subst hEq
      have htid : t.transaction_id ≠ tid := fun h => hc ((hpt t ht).mpr h)
      obtain ⟨a, haMem, haId, haBal, l, hlMem, hlTid, hlRes, hlRel⟩ :=
        hWF.prepared_ok t ht hup hutr
      refine ⟨a, haMem, haId, haBal, l, ?_, hlTid, hlRes, hlRel⟩
      exact @lock_mem_keep _ (s.clock + 1) _ _ hlMem
        (by rw [hlTid]; exact htid)
  · exact lock_uniq_release hWF.lock_uniq
  · intro l hl hrel
    obtain ⟨l0, hl0, hEq⟩ := List.mem_map.mp hl
    rw [← hEq] at hrel
    obtain ⟨hsame, hrel0, htid0⟩ := releaseIf_unreleased l0 hrel
    rw [← hEq, hsame]
    obtain ⟨t, ht, htTid, htSt, htTr, htAcc⟩ := hWF.lock_owner l0 hl0 hrel0
    have htid : t.transaction_id ≠ tid := by rw [htTid]; exact htid0
    refine ⟨t, ?_, htTid, htSt, htTr, htAcc⟩
    refine mem_map_unchanged ht ?_
    rw [if_neg]
    intro hc
    exact htid ((hpt t ht).mp hc)
  · intro w hw
    rcases List.mem_append.mp hw with hw | hw
    · exact Nat.lt_succ_of_lt (hWF.wal_clock w hw)
    · rw [List.mem_singleton] at hw
      rw [hw]
      exact Nat.lt_succ_self _
  · intro u hu hup hutr
    obtain ⟨t, ht, hEq⟩ := List.mem_map.mp hu
    by_cases hc : (t.transaction_id == tid && t.node_id == s.node_id) = true
    · rw [if_pos hc] at hEq
      rw [← hEq] at hup
      exact absurd hup hst
    · rw [if_neg hc] at hEq
      subst hEq
      obtain ⟨w, hwMem, hwType, hwTid⟩ := hWF.prepared_log t ht hup hutr
      exact ⟨w, List.mem_append_left _ hwMem, hwType, hwTid⟩
  · intro c hcMem hcType
    rcases List.mem_append.mp hcMem with hcMem | hcMem
    · obtain ⟨t, ht, htTid⟩ := hWF.commit_tx c hcMem hcType
      refine ⟨if (t.transaction_id == tid && t.node_id == s.node_id) = true
        then { t with status := st, decided_at := some s.clock } else t,
        List.mem_map_of_mem _ ht, ?_⟩
      by_cases hc : (t.transaction_id == tid && t.node_id == s.node_id) = true
      · rw [if_pos hc]
        exact htTid
      · rw [if_neg hc]
        exact htTid
    · rw [List.mem_singleton] at hcMem
      subst hcMem
      obtain ⟨⟨t, ht, htTid⟩, -⟩ := hcl hcType
      refine ⟨if (t.transaction_id == tid && t.node_id == s.node_id) = true
        then { t with status := st, decided_at := some s.clock } else t,
        List.mem_map_of_mem _ ht, ?_⟩
      by_cases hc : (t.transaction_id == tid && t.node_id == s.node_id) = true
      · rw [if_pos hc]
        exact htTid
      · rw [if_neg hc]
        exact htTid
  · intro c hcMem hcType u hu huTid hutr
    obtain ⟨t, ht, hEq⟩ := List.mem_map.mp hu
    have htu_tid : u.transaction_id = t.transaction_id := by
      by_cases hc : (t.transaction_id == tid && t.node_id == s.node_id) = true
      · rw [if_pos hc] at hEq
        rw [← hEq]
      · rw [if_neg hc] at hEq
        rw [← hEq]
    have htu_op : u.operation_type = t.operation_type := by
      by_cases hc : (t.transaction_id == tid && t.node_id == s.node_id) = true
      · rw [if_pos hc] at hEq
        rw [← hEq]
      · rw [if_neg hc] at hEq
        rw [← hEq]
    rcases List.mem_append.mp hcMem with hcMem | hcMem
    · obtain ⟨p, hpMem, hpType, hpTid, hpLt⟩ :=
        hWF.commit_log c hcMem hcType t ht (by rw [← htu_tid]; exact huTid)
          (by rw [← htu_op]; exact hutr)
      exact ⟨p, List.mem_append_left _ hpMem, hpType, hpTid, hpLt⟩
    · rw [List.mem_singleton] at hcMem
      subst hcMem
      obtain ⟨-, hnone⟩ := hcl hcType
      exact absurd (htu_op ▸ hutr)
        (hnone t ht (by rw [← htu_tid]; exact huTid))

theorem WF_abort (s : NodeState) (tid : String) (hWF : WF s) :
    WF (abort_transaction s tid) := by
  unfold abort_transaction
  cases hf : findLocalTx s tid with
  | none => exact hWF
  | some t =>
    dsimp only
    by_cases hterm : t.status = TransactionStatus.committed ∨
        t.status = TransactionStatus.aborted
    · rw [if_pos hterm]
      exact hWF
    · rw [if_neg hterm]
      exact WF_finalize tid hWF TransactionStatus.aborted "abort" (by decide)
        (fun h => absurd h (by decide))

theorem WF_commit_transfer {s : NodeState} {tid : String} {t : LocalTransaction}
    (hWF : WF s) (hf : findLocalTx s tid = some t)
    (hp : t.status = TransactionStatus.prepared)
    (hot : t.operation_type = "transfer") :
    WF (release_all_locks tid
      (log_commit
        (updateTx (applyDelta s t.operation_data.local_account
            t.operation_data.local_delta) tid fun u =>
          { u with
            status := TransactionStatus.committed
            decided_at := some (applyDelta s t.operation_data.local_account
              t.operation_data.local_delta).clock }) tid)) := by
  obtain ⟨htMem, htTid, htNode⟩ := findLocalTx_mem hf
  obtain ⟨a0, ha0Mem, ha0Id, ha0Bal, l0, hl0Mem, hl0Tid, hl0Res, hl0Rel⟩ :=
    hWF.prepared_ok t htMem hp hot
  have hpt : ∀ u ∈ s.local_txs,
      ((u.transaction_id == tid && u.node_id == s.node_id) = true) ↔
      u.transaction_id = tid := by
    intro u hu
    simp [Bool.and_eq_true, beq_iff_eq, hWF.tx_node u hu]
  have haid : ∀ a ∈ s.accounts,
      a.id = t.operation_data.local_account → a = a0 := by
    intro a ha hid
    exact WF_acc_eq hWF ha ha0Mem (by rw [hid, ha0Id])
  have hK2 : ∀ t2 ∈ s.local_txs, t2.transaction_id ≠ tid →
      t2.status = TransactionStatus.prepared → t2.operation_type = "transfer" →
      t2.operation_data.local_account ≠ t.operation_data.local_account := by
    intro t2 ht2 hne h2p h2tr hacc
    obtain ⟨-, -, -, -, l2, hl2Mem, hl2Tid, hl2Res, hl2Rel⟩ :=
      hWF.prepared_ok t2 ht2 h2p h2tr
    have : l2 = l0 := WF_lock_eq hWF hl2Mem hl0Mem hl2Rel hl0Rel
      (by rw [hl2Res, hl0Res, hacc])
    apply hne
    rw [← hl2Tid, this, hl0Tid, htTid]
  simp only [applyDelta, log_commit, appendLog, updateTx, release_all_locks]
  constructor
  · intro a ha
    obtain ⟨a1, ha1, hEq⟩ := List.mem_map.mp ha
    by_cases hc : (a1.id == t.operation_data.local_account &&
        a1.node_id == s.node_id) = true
    · rw [if_pos hc] at hEq
      rw [← hEq]
      exact hWF.acc_node a1 ha1
    · rw [if_neg hc] at hEq
      rw [← hEq]
      exact hWF.acc_node a1 ha1
  · intro a ha
    obtain ⟨a1, ha1, hEq⟩ := List.mem_map.mp ha
    by_cases hc : (a1.id == t.operation_data.local_account &&
        a1.node_id == s.node_id) = true
    · rw [if_pos hc] at hEq
      rw [Bool.and_eq_true, beq_iff_eq, beq_iff_eq] at hc
      have ha1a0 : a1 = a0 := haid a1 ha1 hc.1
      rw [← hEq]
      show 0 ≤ a1.balance + t.operation_data.local_delta
      by_cases hd : t.operation_data.local_delta < 0
      · have := ha0Bal hd
        rw [ha1a0]
        omega
      · have h0 := hWF.acc_nonneg a1 ha1
        omega
    · rw [if_neg hc] at hEq
      rw [← hEq]
      exact hWF.acc_nonneg a1 ha1
  · refine pairwise_map_key (fun a => ?_) hWF.acc_uniq
    by_cases hc : (a.id == t.operation_data.local_account &&
        a.node_id == s.node_id) = true
    · rw [if_pos hc]
    · rw [if_neg hc]
  · intro u hu
    obtain ⟨t2, ht2, hEq⟩ := List.mem_map.mp hu
    by_cases hc : (t2.transaction_id == tid && t2.node_id == s.node_id) = true
    · rw [if_pos hc] at hEq
      rw [← hEq]
      exact hWF.tx_node t2 ht2
    · rw [if_neg hc] at hEq
      rw [← hEq]
      exact hWF.tx_node t2 ht2
  · refine pairwise_map_key (fun u => ?_) hWF.tx_uniq
    by_cases hc : (u.transaction_id == tid && u.node_id == s.node_id) = true
    · rw [if_pos hc]
    · rw [if_neg hc]
  · intro u hu hup hutr
    obtain ⟨t2, ht2, hEq⟩ := List.mem_map.mp hu
    by_cases hc : (t2.transaction_id == tid && t2.node_id == s.node_id) = true
    · rw [if_pos hc] at hEq
      rw [← hEq] at hup
      simp at hup
    · rw [if_neg hc] at hEq
      subst hEq
      have h2tid : t2.transaction_id ≠ tid := fun h => hc ((hpt t2 ht2).mpr h)
      obtain ⟨a2, ha2Mem, ha2Id, ha2Bal, l2, hl2Mem, hl2Tid, hl2Res, hl2Rel⟩ :=
        hWF.prepared_ok t2 ht2 hup hutr
      have hacc_ne : t2.operation_data.local_account ≠
          t.operation_data.local_account := hK2 t2 ht2 h2tid hup hutr
      refine ⟨a2, ?_, ha2Id, ha2Bal, l2, ?_, hl2Tid, hl2Res, hl2Rel⟩
      · refine mem_map_unchanged ha2Mem ?_
        rw [if_neg]
        intro hca
        rw [Bool.and_eq_true, beq_iff_eq] at hca
        exact hacc_ne (by rw [← ha2Id]; exact hca.1)
      · exact lock_mem_keep hl2Mem (by rw [hl2Tid]; exact h2tid)
  · exact lock_uniq_release hWF.lock_uniq
  · intro l hl hrel
    obtain ⟨l1, hl1, hEq⟩ := List.mem_map.mp hl
    rw [← hEq] at hrel
    obtain ⟨hsame, hrel1, htid1⟩ := releaseIf_unreleased l1 hrel
    rw [← hEq, hsame]
    obtain ⟨t2, ht2, h2Tid, h2St, h2Tr, h2Acc⟩ := hWF.lock_owner l1 hl1 hrel1
    have h2tid : t2.transaction_id ≠ tid := by rw [h2Tid]; exact htid1
    refine ⟨t2, ?_, h2Tid, h2St, h2Tr, h2Acc⟩
    refine mem_map_unchanged ht2 ?_
    rw [if_neg]
    intro hc
    exact h2tid ((hpt t2 ht2).mp hc)
  · intro w hw
    rcases List.mem_append.mp hw with hw | hw
    · exact Nat.lt_succ_of_lt (hWF.wal_clock w hw)
    · rw [List.mem_singleton] at hw
      rw [hw]
      exact Nat.lt_succ_self _
  · intro u hu hup hutr
    obtain ⟨t2, ht2, hEq⟩ := List.mem_map.mp hu
    by_cases hc : (t2.transaction_id == tid && t2.node_id == s.node_id) = true
    · rw [if_pos hc] at hEq
      rw [← hEq] at hup
      simp at hup
    · rw [if_neg hc] at hEq
      subst hEq
      obtain ⟨w, hwMem, hwType, hwTid⟩ := hWF.prepared_log t2 ht2 hup hutr
      exact ⟨w, List.mem_append_left _ hwMem, hwType, hwTid⟩
  · intro c hcMem hcType
    rcases List.mem_append.mp hcMem with hcMem | hcMem
    · obtain ⟨t2, ht2, h2Tid⟩ := hWF.commit_tx c hcMem hcType
      refine ⟨_, List.mem_map_of_mem _ ht2, ?_⟩
      by_cases hc : (t2.transaction_id == tid && t2.node_id == s.node_id) = true
      · rw [if_pos hc]
        exact h2Tid
      · rw [if_neg hc]
        exact h2Tid
    · rw [List.mem_singleton] at hcMem
      subst hcMem
      refine ⟨_, List.mem_map_of_mem _ htMem, ?_⟩
      rw [if_pos ((hpt t htMem).mpr htTid)]
      exact htTid
  · intro c hcMem hcType u hu huTid hutr
    obtain ⟨t2, ht2, hEq⟩ := List.mem_map.mp hu
    have htu_tid : u.transaction_id = t2.transaction_id := by
      by_cases hc : (t2.transaction_id == tid && t2.node_id == s.node_id) = true
      · rw [if_pos hc] at hEq
        rw [← hEq]
      · rw [if_neg hc] at hEq
        rw [← hEq]
    have htu_op : u.operation_type = t2.operation_type := by
      by_cases hc : (t2.transaction_id == tid && t2.node_id == s.node_id) = true
      · rw [if_pos hc] at hEq
        rw [← hEq]
      · rw [if_neg hc] at hEq
        rw [← hEq]
    rcases List.mem_append.mp hcMem with hcMem | hcMem
    · obtain ⟨p, hpMem, hpType, hpTid, hpLt⟩ :=
        hWF.commit_log c hcMem hcType t2 ht2 (by rw [← htu_tid]; exact huTid)
          (by rw [← htu_op]; exact hutr)
      exact ⟨p, List.mem_append_left _ hpMem, hpType, hpTid, hpLt⟩
    · rw [List.mem_singleton] at hcMem
      subst hcMem
      obtain ⟨p, hpMem, hpType, hpTid⟩ := hWF.prepared_log t htMem hp hot
      refine ⟨p, List.mem_append_left _ hpMem, hpType, ?_, ?_⟩
      · rw [hpTid, htTid]
      · exact hWF.wal_clock p hpMem

theorem WF_commit (s : NodeState) (tid : String) (hWF : WF s) :
    WF (commit_transaction s tid) := by
  unfold commit_transaction
  cases hf : findLocalTx s tid with
  | none => exact hWF
  | some t =>
    dsimp only
    by_cases hp : t.status ≠ TransactionStatus.prepared
    · rw [if_pos hp]
      exact hWF
    · rw [if_neg hp]
      push_neg at hp
      by_cases hot : (t.operation_type == "transfer") = true
      · rw [if_pos hot]
        cases ha : findAccount s t.operation_data.local_account with
        | none => exact hWF
        | some account =>
          exact WF_commit_transfer hWF hf hp (beq_iff_eq.mp hot)
      · rw [if_neg hot]
        have hft := findLocalTx_mem hf
        refine WF_finalize tid hWF TransactionStatus.committed "commit"
          (by decide) ?_
        intro _
        refine ⟨⟨t, hft.1, hft.2.1⟩, ?_⟩
        intro u hu hutid htr
        have huT : u = t := WF_tx_eq hWF hu hft.1 (by rw [hutid, hft.2.1])
        apply hot
        rw [huT] at htr
        rw [htr]
        rfl

theorem updateTx_txs_append {X s : NodeState} {tid ot : String}
    {od : OperationData} (f : LocalTransaction → LocalTransaction)
    (hX : X.local_txs = s.local_txs ++ [pendingTx s tid ot od])
    (hN : X.node_id = s.node_id)
    (hfresh : findLocalTx s tid = none) :
    (updateTx X tid f).local_txs =
      s.local_txs ++ [f (pendingTx s tid ot od)] := by
  show List.map _ X.local_txs = _
  rw [hN, hX, List.map_append]
  congr 1
  · apply map_id_of_forall
    intro t ht
    rw [if_neg]
    intro hc
    rw [Bool.and_eq_true, beq_iff_eq, beq_iff_eq] at hc
    exact findLocalTx_eq_none.mp hfresh t ht ⟨hc.1, hc.2⟩
  · have hcond : ((pendingTx s tid ot od).transaction_id == tid &&
        (pendingTx s tid ot od).node_id == s.node_id) = true := by
      simp [pendingTx]
    simp only [List.map_cons, List.map_nil, if_pos hcond]

theorem pairwise_of_mem {α : Type} {R : α → α → Prop} :
    ∀ {l : List α}, (∀ a ∈ l, ∀ b ∈ l, R a b) → l.Pairwise R
  | [], _ => List.Pairwise.nil
  | x :: xs, h => by
    constructor
    · intro b hb
      exact h x (List.mem_cons_self x xs) b (List.mem_cons_of_mem x hb)
    · exact pairwise_of_mem fun a ha b hb =>
        h a (List.mem_cons_of_mem x ha) b (List.mem_cons_of_mem x hb)

/-- WF is preserved by the abort-prepare path of a fresh prepare: the new
`LocalTransaction` is committed as `ABORTED`/vote `"no"`, and any lock the
prepare acquired (always owned by `tid`) is released again. -/
theorem WF_abort_prepare {s : NodeState} {tid ot : String} {od : OperationData}
    (hWF : WF s) (hfresh : findLocalTx s tid = none) (s1 : NodeState)
    (h1txs : s1.local_txs = s.local_txs ++ [pendingTx s tid ot od])
    (h1node : s1.node_id = s.node_id)
    (h1acc : s1.accounts = s.accounts)
    (h1wal : s1.wal = s.wal)
    (h1clock : s1.clock = s.clock)
    (h1locks : ∃ extra : List Lock, s1.locks = s.locks ++ extra ∧
      ∀ l ∈ extra, l.transaction_id = tid) :
    WF (abort_prepare s1 tid) := by
  obtain ⟨extra, hext, hextTid⟩ := h1locks
  have hfreshAll := findLocalTx_eq_none.mp hfresh
  have hsIdLocks : ∀ l ∈ s.locks,
      (if (l.transaction_id == tid && l.released_at.isNone) = true
        then { l with released_at := some s1.clock } else l) = l := by
    intro l hl
    rw [if_neg]
    intro hc
    rw [Bool.and_eq_true, beq_iff_eq, Option.isNone_iff_eq_none] at hc
    obtain ⟨t0, ht0, h0Tid, h0St, -, -⟩ := hWF.lock_owner l hl hc.2
    exact hfreshAll t0 ht0 ⟨by rw [h0Tid, hc.1], hWF.tx_node t0 ht0⟩
  have htxs : (abort_prepare s1 tid).local_txs =
      s.local_txs ++ [{ pendingTx s tid ot od with
        status := TransactionStatus.aborted, vote := some "no" }] := by
    show (updateTx s1 tid _).local_txs = _
    exact updateTx_txs_append _ h1txs h1node hfresh
  have hlocks : (abort_prepare s1 tid).locks =
      s.locks ++ extra.map (fun l =>
        if (l.transaction_id == tid && l.released_at.isNone) = true
        then { l with released_at := some s1.clock } else l) := by
    show (s1.locks.map _) = _
    rw [hext, List.map_append]
    congr 1
    exact map_id_of_forall hsIdLocks
  have hextRel : ∀ l ∈ extra.map (fun l =>
      if (l.transaction_id == tid && l.released_at.isNone) = true
      then { l with released_at := some s1.clock } else l),
      l.transaction_id = tid ∧ l.released_at ≠ none ∨
      l.transaction_id = tid ∧ (∃ l0 ∈ extra, l = l0) := by
    intro l hl
    obtain ⟨l0, hl0, hEq⟩ := List.mem_map.mp hl
    by_cases hc : (l0.transaction_id == tid && l0.released_at.isNone) = true
    · rw [if_pos hc] at hEq
      left
      rw [← hEq]
      exact ⟨hextTid l0 hl0, by simp⟩
    · rw [if_neg hc] at hEq
      subst hEq
      right
      exact ⟨hextTid l0 hl0, l0, hl0, rfl⟩
  have hextNotNone : ∀ l ∈ extra.map (fun l =>
      if (l.transaction_id == tid && l.released_at.isNone) = true
      then { l with released_at := some s1.clock } else l),
      l.released_at = none → False := by
    intro l hl hrel
    obtain ⟨l0, hl0, hEq⟩ := List.mem_map.mp hl
    rw [← hEq] at hrel
    obtain ⟨hsame, -, htidne⟩ := releaseIf_unreleased l0 hrel
    exact htidne (hextTid l0 hl0)
  have hfreshTid : ∀ t ∈ s.local_txs, t.transaction_id ≠ tid := by
    intro t ht h
    exact hfreshAll t ht ⟨h, hWF.tx_node t ht⟩
  constructor
  · intro a ha
    rw [show (abort_prepare s1 tid).accounts = s.accounts from h1acc] at ha
    rw [show (abort_prepare s1 tid).node_id = s.node_id from h1node]
    exact hWF.acc_node a ha
  · intro a ha
    rw [show (abort_prepare s1 tid).accounts = s.accounts from h1acc] at ha
    exact hWF.acc_nonneg a ha
  · rw [show (abort_prepare s1 tid).accounts = s.accounts from h1acc]
    exact hWF.acc_uniq
  · intro u hu
    rw [htxs] at hu
    rw [show (abort_prepare s1 tid).node_id = s.node_id from h1node]
    rcases List.mem_append.mp hu with hu | hu
    · exact hWF.tx_node u hu
    · rw [List.mem_singleton] at hu
      rw [hu]
      rfl
  · rw [htxs, List.pairwise_append]
    refine ⟨hWF.tx_uniq, List.pairwise_singleton _ _, ?_⟩
    intro t ht u hu
    rw [List.mem_singleton] at hu
    subst hu
    show t.transaction_id ≠ tid
    exact hfreshTid t ht
  · intro u hu hup hutr
    rw [htxs] at hu
    rcases List.mem_append.mp hu with hu | hu
    · obtain ⟨a2, ha2, h2Id, h2Bal, l2, hl2, h2Tid, h2Res, h2Rel⟩ :=
        hWF.prepared_ok u hu hup hutr
      refine ⟨a2, ?_, h2Id, h2Bal, l2, ?_, h2Tid, h2Res, h2Rel⟩
      · rw [show (abort_prepare s1 tid).accounts = s.accounts from h1acc]
        exact ha2
      · rw [hlocks]
        exact List.mem_append_left _ hl2
    · rw [List.mem_singleton] at hu
      rw [hu] at hup
      simp at hup
  · rw [hlocks, List.pairwise_append]
    refine ⟨hWF.lock_uniq, ?_, ?_⟩
    · refine pairwise_of_mem ?_
      intro a ha b hb hra hrb
      exact absurd hra (fun h => hextNotNone a ha h)
    · intro l hl m hm hlr hmr
      exact absurd hmr (fun h => hextNotNone m hm h)
  · intro l hl hrel
    rw [hlocks] at hl
    rcases List.mem_append.mp hl with hl | hl
    · obtain ⟨t0, ht0, h0Tid, h0St, h0Tr, h0Acc⟩ := hWF.lock_owner l hl hrel
      refine ⟨t0, ?_, h0Tid, h0St, h0Tr, h0Acc⟩
      rw [htxs]
      exact List.mem_append_left _ ht0
    · exact absurd hrel (fun h => hextNotNone l hl h)
  · intro w hw
    rw [show (abort_prepare s1 tid).wal = s.wal from h1wal] at hw
    rw [show (abort_prepare s1 tid).clock = s.clock from h1clock]
    exact hWF.wal_clock w hw
  · intro u hu hup hutr
    rw [htxs] at hu
    rcases List.mem_append.mp hu with hu | hu
    · obtain ⟨w, hwMem, hwType, hwTid⟩ := hWF.prepared_log u hu hup hutr
      refine ⟨w, ?_, hwType, hwTid⟩
      rw [show (abort_prepare s1 tid).wal = s.wal from h1wal]
      exact hwMem
    · rw [List.mem_singleton] at hu
      rw [hu] at hup
      simp at hup
  · intro c hc hcType
    rw [show (abort_prepare s1 tid).wal = s.wal from h1wal] at hc
    obtain ⟨t0, ht0, h0Tid⟩ := hWF.commit_tx c hc hcType
    refine ⟨t0, ?_, h0Tid⟩
    rw [htxs]
    exact List.mem_append_left _ ht0
  · intro c hc hcType u hu huTid hutr
    rw [show (abort_prepare s1 tid).wal = s.wal from h1wal] at hc
    rw [htxs] at hu
    rcases List.mem_append.mp hu with hu | hu
    · obtain ⟨p, hpMem, hpType, hpTid, hpLt⟩ :=
        hWF.commit_log c hc hcType u hu huTid hutr
      refine ⟨p, ?_, hpType, hpTid, hpLt⟩
      rw [show (abort_prepare s1 tid).wal = s.wal from h1wal]
      exact hpMem
    · rw [List.mem_singleton] at hu
      obtain ⟨t0, ht0, h0Tid⟩ := hWF.commit_tx c hc hcType
      refine absurd (h0Tid.trans ?_) (hfreshTid t0 ht0)
      rw [← huTid, hu]
      rfl

/-- WF is preserved by the success path of a fresh transfer prepare: the
new row reaches `PREPARED` holding its freshly acquired lock, with the
`prepare` WAL row written. -/
theorem WF_prepare_success {s : NodeState} {tid : String} {od : OperationData}
    (hWF : WF s) (hfresh : findLocalTx s tid = none) (s1 : NodeState)
    (account : Account)
    (h1txs : s1.local_txs = s.local_txs ++ [pendingTx s tid "transfer" od])
    (h1node : s1.node_id = s.node_id)
    (h1acc : s1.accounts = s.accounts)
    (h1wal : s1.wal = s.wal)
    (h1clock : s1.clock = s.clock)
    (h1locks : s1.locks = s.locks ++
      [{ resource_type := "account", resource_id := od.local_account,
         node_id := s.node_id, lock_type := LockType.write,
         transaction_id := tid, acquired_at := s.clock,
         released_at := none }])
    (hconf : ∀ l ∈ s.locks, l.released_at = none →
      l.resource_id ≠ od.local_account)
    (ha : findAccount s1 od.local_account = some account)
    (hval : ¬(od.local_delta < 0 ∧ account.balance < |od.local_delta|)) :
    WF (updateTx (log_prepare s1 tid account.balance
        (account.balance + od.local_delta)) tid fun t =>
      { t with
        status := TransactionStatus.prepared
        vote := some "yes"
        prepared_at := some (log_prepare s1 tid account.balance
          (account.balance + od.local_delta)).clock }) := by
  have haMemRaw := findAccount_mem ha
  have haMem : account ∈ s.accounts := h1acc ▸ haMemRaw.1
  have haId : account.id = od.local_account := haMemRaw.2.1
  have hfreshTid : ∀ t ∈ s.local_txs, t.transaction_id ≠ tid := fun t ht h =>
    findLocalTx_eq_none.mp hfresh t ht ⟨h, hWF.tx_node t ht⟩
  have htxs := updateTx_txs_append
    (fun t : LocalTransaction =>
      { t with
        status := TransactionStatus.prepared
        vote := some "yes"
        prepared_at := some (log_prepare s1 tid account.balance
          (account.balance + od.local_delta)).clock })
    (X := log_prepare s1 tid account.balance (account.balance + od.local_delta))
    h1txs h1node hfresh
  have hwal : (log_prepare s1 tid account.balance
      (account.balance + od.local_delta)).wal = s.wal ++
      [{ transaction_id := tid, node_id := s1.node_id, log_type := "prepare",
         old_state := some account.balance,
         new_state := some (account.balance + od.local_delta),
         applied := false, created_at := s1.clock }] := by
    show s1.wal ++ _ = _
    rw [h1wal]
  constructor
  · intro a ha2
    rw [show (updateTx (log_prepare s1 tid account.balance
      (account.balance + od.local_delta)) tid _).accounts = s.accounts
      from h1acc] at ha2
    rw [show (updateTx (log_prepare s1 tid account.balance
      (account.balance + od.local_delta)) tid _).node_id = s.node_id
      from h1node]
    exact hWF.acc_node a ha2
  · intro a ha2
    rw [show (updateTx (log_prepare s1 tid account.balance
      (account.balance + od.local_delta)) tid _).accounts = s.accounts
      from h1acc] at ha2
    exact hWF.acc_nonneg a ha2
  · rw [show (updateTx (log_prepare s1 tid account.balance
      (account.balance + od.local_delta)) tid _).accounts = s.accounts
      from h1acc]
    exact hWF.acc_uniq
  · intro u hu
    rw [htxs] at hu
    rw [show (updateTx (log_prepare s1 tid account.balance
      (account.balance + od.local_delta)) tid _).node_id = s.node_id
      from h1node]
    rcases List.mem_append.mp hu with hu | hu
    · exact hWF.tx_node u hu
    · rw [List.mem_singleton] at hu
      rw [hu]
      rfl
  · rw [htxs, List.pairwise_append]
    refine ⟨hWF.tx_uniq, List.pairwise_singleton _ _, ?_⟩
    intro t ht u hu
    rw [List.mem_singleton] at hu
    subst hu
    exact hfreshTid t ht
  · intro u hu hup hutr
    rw [htxs] at hu
    rcases List.mem_append.mp hu with hu | hu
    · obtain ⟨a2, ha2, h2Id, h2Bal, l2, hl2, h2Tid, h2Res, h2Rel⟩ :=
        hWF.prepared_ok u hu hup hutr
      refine ⟨a2, ?_, h2Id, h2Bal, l2, ?_, h2Tid, h2Res, h2Rel⟩
      · rw [show (updateTx (log_prepare s1 tid account.balance
          (account.balance + od.local_delta)) tid _).accounts = s.accounts
          from h1acc]
        exact ha2
      · rw [show (updateTx (log_prepare s1 tid account.balance
          (account.balance + od.local_delta)) tid _).locks = s.locks ++ _
          from h1locks]
        exact List.mem_append_left _ hl2
    · rw [List.mem_singleton] at hu
      subst hu
      refine ⟨account, ?_, haId, ?_, ?_⟩
      · rw [show (updateTx (log_prepare s1 tid account.balance
          (account.balance + od.local_delta)) tid _).accounts = s.accounts
          from h1acc]
        exact haMem
      · intro hd
        have hd2 : od.local_delta < 0 := hd
        have h2 : ¬(account.balance < |od.local_delta|) :=
          fun hlt => hval ⟨hd2, hlt⟩
        rw [abs_of_neg hd2] at h2
        exact le_of_not_lt h2
      · refine ⟨{ resource_type := "account"
                  resource_id := od.local_account
                  node_id := s.node_id
                  lock_type := LockType.write
                  transaction_id := tid
                  acquired_at := s.clock
                  released_at := none }, ?_, ?_, ?_, ?_⟩
        · rw [show (updateTx (log_prepare s1 tid account.balance
            (account.balance + od.local_delta)) tid _).locks = s.locks ++ _
            from h1locks]
          exact List.mem_append_right _ (List.mem_singleton_self _)
        · rfl
        · rfl
        · rfl
  · rw [show (updateTx (log_prepare s1 tid account.balance
      (account.balance + od.local_delta)) tid _).locks = s.locks ++ _
      from h1locks, List.pairwise_append]
    refine ⟨hWF.lock_uniq, List.pairwise_singleton _ _, ?_⟩
    intro l hl m hm hlr hmr
    rw [List.mem_singleton] at hm
    subst hm
    exact hconf l hl hlr
  · intro l hl hrel
    rw [show (updateTx (log_prepare s1 tid account.balance
      (account.balance + od.local_delta)) tid _).locks = s.locks ++ _
      from h1locks] at hl
    rcases List.mem_append.mp hl with hl | hl
    · obtain ⟨t0, ht0, h0Tid, h0St, h0Tr, h0Acc⟩ := hWF.lock_owner l hl hrel
      refine ⟨t0, ?_, h0Tid, h0St, h0Tr, h0Acc⟩
      rw [htxs]
      exact List.mem_append_left _ ht0
    · rw [List.mem_singleton] at hl
      subst hl
      refine ⟨{ pendingTx s tid "transfer" od with
          status := TransactionStatus.prepared
          vote := some "yes"
          prepared_at := some (log_prepare s1 tid account.balance
            (account.balance + od.local_delta)).clock }, ?_, ?_, ?_, ?_, ?_⟩
      · rw [htxs]
        exact List.mem_append_right _ (List.mem_singleton_self _)
      · rfl
      · rfl
      · rfl
      · rfl
  · intro w hw
    rw [show (updateTx (log_prepare s1 tid account.balance
      (account.balance + od.local_delta)) tid _).wal = _ from hwal] at hw
    show w.created_at < s1.clock + 1
    rcases List.mem_append.mp hw with hw | hw
    · rw [h1clock]
      exact Nat.lt_succ_of_lt (hWF.wal_clock w hw)
    · rw [List.mem_singleton] at hw
      rw [hw]
      exact Nat.lt_succ_self _
  · intro u hu hup hutr
    rw [htxs] at hu
    rcases List.mem_append.mp hu with hu | hu
    · obtain ⟨w, hwMem, hwType, hwTid⟩ := hWF.prepared_log u hu hup hutr
      refine ⟨w, ?_, hwType, hwTid⟩
      rw [show (updateTx (log_prepare s1 tid account.balance
        (account.balance + od.local_delta)) tid _).wal = _ from hwal]
      exact List.mem_append_left _ hwMem
    · rw [List.mem_singleton] at hu
      subst hu
      refine ⟨{ transaction_id := tid
                node_id := s1.node_id
                log_type := "prepare"
                old_state := some account.balance
                new_state := some (account.balance + od.local_delta)
                applied := false
                created_at := s1.clock }, ?_, ?_, ?_⟩
      · rw [show (updateTx (log_prepare s1 tid account.balance
          (account.balance + od.local_delta)) tid _).wal = _ from hwal]
        exact List.mem_append_right _ (List.mem_singleton_self _)
      · rfl
      · rfl
  · intro c hc hcType
    rw [show (updateTx (log_prepare s1 tid account.balance
      (account.balance + od.local_delta)) tid _).wal = _ from hwal] at hc
    rcases List.mem_append.mp hc with hc | hc
    · obtain ⟨t0, ht0, h0Tid⟩ := hWF.commit_tx c hc hcType
      refine ⟨t0, ?_, h0Tid⟩
      rw [htxs]
      exact List.mem_append_left _ ht0
    · rw [List.mem_singleton] at hc
      rw [hc] at hcType
      exact absurd hcType (show ("prepare" : String) ≠ "commit" by decide)
  · intro c hc hcType u hu huTid hutr
    rw [show (updateTx (log_prepare s1 tid account.balance
      (account.balance + od.local_delta)) tid _).wal = _ from hwal] at hc
    rw [htxs] at hu
    rcases List.mem_append.mp hc with hc | hc
    · rcases List.mem_append.mp hu with hu | hu
      · obtain ⟨p, hpMem, hpType, hpTid, hpLt⟩ :=
          hWF.commit_log c hc hcType u hu huTid hutr
        refine ⟨p, ?_, hpType, hpTid, hpLt⟩
        rw [show (updateTx (log_prepare s1 tid account.balance
          (account.balance + od.local_delta)) tid _).wal = _ from hwal]
        exact List.mem_append_left _ hpMem
      · rw [List.mem_singleton] at hu
        obtain ⟨t0, ht0, h0Tid⟩ := hWF.commit_tx c hc hcType
        refine absurd (h0Tid.trans ?_) (hfreshTid t0 ht0)
        rw [← huTid, hu]
        rfl
    · rw [List.mem_singleton] at hc
      rw [hc] at hcType
      exact absurd hcType (show ("prepare" : String) ≠ "commit" by decide)

/-- WF is preserved by the non-transfer prepare path: a fresh row reaches
`PREPARED` with vote `"yes"` and no account, lock or WAL effect. -/
theorem WF_prepare_nontransfer {s : NodeState} {tid ot : String}
    {od : OperationData} (hWF : WF s) (hfresh : findLocalTx s tid = none)
    (hot : ot ≠ "transfer") (X : NodeState)
    (f : LocalTransaction → LocalTransaction)
    (hXtxs : X.local_txs = s.local_txs ++ [pendingTx s tid ot od])
    (hXnode : X.node_id = s.node_id) (hXacc : X.accounts = s.accounts)
    (hXwal : X.wal = s.wal) (hXlocks : X.locks = s.locks)
    (hXclock : X.clock = s.clock)
    (hfStatus : (f (pendingTx s tid ot od)).status ≠ TransactionStatus.prepared ∨
      (f (pendingTx s tid ot od)).operation_type = ot)
    (hfKeep : ∀ t, (f t).transaction_id = t.transaction_id ∧
      (f t).node_id = t.node_id) :
    WF (updateTx X tid f) := by
  have hfreshTid : ∀ t ∈ s.local_txs, t.transaction_id ≠ tid := fun t ht h =>
    findLocalTx_eq_none.mp hfresh t ht ⟨h, hWF.tx_node t ht⟩
  have htxs := updateTx_txs_append f hXtxs hXnode hfresh
  constructor
  · intro a ha2
    rw [show (updateTx X tid f).accounts = s.accounts from hXacc] at ha2
    rw [show (updateTx X tid f).node_id = s.node_id from hXnode]
    exact hWF.acc_node a ha2
  · intro a ha2
    rw [show (updateTx X tid f).accounts = s.accounts from hXacc] at ha2
    exact hWF.acc_nonneg a ha2
  · rw [show (updateTx X tid f).accounts = s.accounts from hXacc]
    exact hWF.acc_uniq
  · intro u hu
    rw [htxs] at hu
    rw [show (updateTx X tid f).node_id = s.node_id from hXnode]
    rcases List.mem_append.mp hu with hu | hu
    · exact hWF.tx_node u hu
    · rw [List.mem_singleton] at hu
      rw [hu, (hfKeep _).2]
      rfl
  · rw [htxs, List.pairwise_append]
    refine ⟨hWF.tx_uniq, List.pairwise_singleton _ _, ?_⟩
    intro t ht u hu
    rw [List.mem_singleton] at hu
    subst hu
    rw [(hfKeep _).1]
    exact hfreshTid t ht
  · intro u hu hup hutr
    rw [htxs] at hu
    rcases List.mem_append.mp hu with hu | hu
    · obtain ⟨a2, ha2, h2Id, h2Bal, l2, hl2, h2Tid, h2Res, h2Rel⟩ :=
        hWF.prepared_ok u hu hup hutr
      refine ⟨a2, ?_, h2Id, h2Bal, l2, ?_, h2Tid, h2Res, h2Rel⟩
      · rw [show (updateTx X tid f).accounts = s.accounts from hXacc]
        exact ha2
      · rw [show (updateTx X tid f).locks = s.locks from hXlocks]
        exact hl2
    · rw [List.mem_singleton] at hu
      subst hu
      rcases hfStatus with h | h
      · exact absurd hup h
      · rw [h] at hutr
        exact absurd hutr hot
  · rw [show (updateTx X tid f).locks = s.locks from hXlocks]
    exact hWF.lock_uniq
  · intro l hl hrel
    rw [show (updateTx X tid f).locks = s.locks from hXlocks] at hl
    obtain ⟨t0, ht0, h0Tid, h0St, h0Tr, h0Acc⟩ := hWF.lock_owner l hl hrel
    refine ⟨t0, ?_, h0Tid, h0St, h0Tr, h0Acc⟩
    rw [htxs]
    exact List.mem_append_left _ ht0
  · intro w hw
    rw [show (updateTx X tid f).wal = s.wal from hXwal] at hw
    rw [show (updateTx X tid f).clock = s.clock from hXclock]
    exact hWF.wal_clock w hw
  · intro u hu hup hutr
    rw [htxs] at hu
    rcases List.mem_append.mp hu with hu | hu
    · obtain ⟨w, hwMem, hwType, hwTid⟩ := hWF.prepared_log u hu hup hutr
      refine ⟨w, ?_, hwType, hwTid⟩
      rw [show (updateTx X tid f).wal = s.wal from hXwal]
      exact hwMem
    · rw [List.mem_singleton] at hu
      subst hu
      rcases hfStatus with h | h
      · exact absurd hup h
      · rw [h] at hutr
        exact absurd hutr hot
  · intro c hc hcType
    rw [show (updateTx X tid f).wal = s.wal from hXwal] at hc
    obtain ⟨t0, ht0, h0Tid⟩ := hWF.commit_tx c hc hcType
    refine ⟨t0, ?_, h0Tid⟩
    rw [htxs]
    exact List.mem_append_left _ ht0
  · intro c hc hcType u hu huTid hutr
    rw [show (updateTx X tid f).wal = s.wal from hXwal] at hc
    rw [htxs] at hu
    rcases List.mem_append.mp hu with hu | hu
    · obtain ⟨p, hpMem, hpType, hpTid, hpLt⟩ :=
        hWF.commit_log c hc hcType u hu huTid hutr
      refine ⟨p, ?_, hpType, hpTid, hpLt⟩
      rw [show (updateTx X tid f).wal = s.wal from hXwal]
      exact hpMem
    · rw [List.mem_singleton] at hu
      obtain ⟨t0, ht0, h0Tid⟩ := hWF.commit_tx c hc hcType
      refine absurd (h0Tid.trans ?_) (hfreshTid t0 ht0)
      rw [← huTid, hu, (hfKeep _).1]
      rfl

/-- WF is preserved by every `/api/prepare` invocation. -/
theorem WF_prepare (s : NodeState) (tid ot : String) (od : OperationData)
    (polls : Nat) (hWF : WF s) :
    WF (prepareEndpoint s tid ot od polls).2 := by
  unfold prepareEndpoint prepare_transaction
  by_cases hdup : (findLocalTx s tid).isSome = true
  · rw [if_pos hdup]
    exact hWF
  · have hfresh : findLocalTx s tid = none := by
      cases h : findLocalTx s tid with
      | none => rfl
      | some t =>
        rw [h] at hdup
        exact absurd rfl hdup
    rw [if_neg hdup]
    by_cases hot : ot ≠ "transfer"
    · rw [if_pos hot]
      dsimp only
      exact WF_prepare_nontransfer hWF hfresh hot _ _ rfl rfl rfl rfl rfl rfl
        (Or.inr rfl) (fun t => ⟨rfl, rfl⟩)
    · rw [if_neg hot]
      push_neg at hot
      subst hot
      dsimp only
      rcases hacq : acquire_write_lock tid od.local_account polls
          { s with local_txs := s.local_txs ++
            [pendingTx s tid "transfer" od] } with - | ⟨flag, s1⟩
      · exact hWF
      have hspec := acquire_write_lock_spec tid od.local_account polls
        { s with local_txs := s.local_txs ++ [pendingTx s tid "transfer" od] }
      rw [hacq] at hspec
      cases flag with
      | false =>
        dsimp only
        have hs1 : s1 = { s with local_txs := s.local_txs ++
            [pendingTx s tid "transfer" od] } := by
          rcases hspec with h | h | ⟨-, h⟩
          · exact Option.noConfusion h
          · simp only [Option.some.injEq, Prod.mk.injEq] at h
            exact h.2
          · simp only [Option.some.injEq, Prod.mk.injEq] at h
            exact absurd h.1 (by decide)
        subst hs1
        refine WF_abort_prepare hWF hfresh
          { s with local_txs := s.local_txs ++ [pendingTx s tid "transfer" od] }
          rfl rfl rfl rfl rfl ⟨[], ?_, ?_⟩
        · rw [List.append_nil]
        · intro l hl
          exact absurd hl (List.not_mem_nil l)
      | true =>
        dsimp only
        have hs1 : s1 = { s with
            local_txs := s.local_txs ++ [pendingTx s tid "transfer" od]
            locks := s.locks ++
              [{ resource_type := "account"
                 resource_id := od.local_account
                 node_id := s.node_id
                 lock_type := LockType.write
                 transaction_id := tid
                 acquired_at := s.clock
                 released_at := none }] } := by
          rcases hspec with h | h | ⟨-, h⟩
          · exact Option.noConfusion h
          · simp only [Option.some.injEq, Prod.mk.injEq] at h
            exact absurd h.1 (by decide)
          · simp only [Option.some.injEq, Prod.mk.injEq] at h
            exact h.2
        have hconf : ∀ l ∈ s.locks, l.released_at = none →
            l.resource_id ≠ od.local_account := by
          rcases hspec with h | h | ⟨hc, -⟩
          · exact Option.noConfusion h
          · simp only [Option.some.injEq, Prod.mk.injEq] at h
            exact absurd h.1 (by decide)
          · exact lockConflict_eq_false hc
        cases ha : findAccount s1 od.local_account with
        | none =>
          refine WF_abort_prepare hWF hfresh s1 (by rw [hs1]) (by rw [hs1])
            (by rw [hs1]) (by rw [hs1]) (by rw [hs1])
            ⟨[{ resource_type := "account"
                resource_id := od.local_account
                node_id := s.node_id
                lock_type := LockType.write
                transaction_id := tid
                acquired_at := s.clock
                released_at := none }], by rw [hs1], ?_⟩
          intro l hl
          rw [List.mem_singleton] at hl
          rw [hl]
        | some account =>
          dsimp only
          by_cases hbal : od.local_delta < 0 ∧
              account.balance < |od.local_delta|
          · rw [if_pos hbal]
            refine WF_abort_prepare hWF hfresh s1 (by rw [hs1]) (by rw [hs1])
              (by rw [hs1]) (by rw [hs1]) (by rw [hs1])
              ⟨[{ resource_type := "account"
                  resource_id := od.local_account
                  node_id := s.node_id
                  lock_type := LockType.write
                  transaction_id := tid
                  acquired_at := s.clock
                  released_at := none }], by rw [hs1], ?_⟩
            intro l hl
            rw [List.mem_singleton] at hl
            rw [hl]
          · rw [if_neg hbal]
            exact WF_prepare_success hWF hfresh s1 account (by rw [hs1])
              (by rw [hs1]) (by rw [hs1]) (by rw [hs1]) (by rw [hs1])
              (by rw [hs1]) hconf ha hbal

/-- WF is preserved by `release_all_locks` for a transaction that has no
`PREPARED` transfer row. -/
theorem WF_release {s : NodeState} (tid : String) (hWF : WF s)
    (hnp : ∀ t ∈ s.local_txs, t.transaction_id = tid →
      t.status ≠ TransactionStatus.prepared) :
    WF (release_all_locks tid s) := by
  constructor
  · exact hWF.acc_node
  · exact hWF.acc_nonneg
  · exact hWF.acc_uniq
  · exact hWF.tx_node
  · exact hWF.tx_uniq
  · intro u hu hup hutr
    obtain ⟨a2, ha2, h2Id, h2Bal, l2, hl2, h2Tid, h2Res, h2Rel⟩ :=
      hWF.prepared_ok u hu hup hutr
    have hne : u.transaction_id ≠ tid := fun h => hnp u hu h hup
    refine ⟨a2, ha2, h2Id, h2Bal, l2, ?_, h2Tid, h2Res, h2Rel⟩
    exact lock_mem_keep hl2 (by rw [h2Tid]; exact hne)
  · exact lock_uniq_release hWF.lock_uniq
  · intro l hl hrel
    obtain ⟨l0, hl0, hEq⟩ := List.mem_map.mp hl
    rw [← hEq] at hrel
    obtain ⟨hsame, hrel0, htid0⟩ := releaseIf_unreleased l0 hrel
    rw [← hEq, hsame]
    exact hWF.lock_owner l0 hl0 hrel0
  · exact hWF.wal_clock
  · exact hWF.prepared_log
  · exact hWF.commit_tx
  · exact hWF.commit_log

/-- WF is preserved by appending any non-`commit` WAL row. -/
theorem WF_appendLog {s : NodeState} (hWF : WF s) (tid lt : String)
    (oldSt newSt : Option Int) (ap : Bool) (hlt : lt ≠ "commit") :
    WF (appendLog s tid lt oldSt newSt ap) := by
  constructor
  · exact hWF.acc_node
  · exact hWF.acc_nonneg
  · exact hWF.acc_uniq
  · exact hWF.tx_node
  · exact hWF.tx_uniq
  · exact hWF.prepared_ok
  · exact hWF.lock_uniq
  · exact hWF.lock_owner
  · intro w hw
    rcases List.mem_append.mp hw with hw | hw
    · exact Nat.lt_succ_of_lt (hWF.wal_clock w hw)
    · rw [List.mem_singleton] at hw
      rw [hw]
      exact Nat.lt_succ_self _
  · intro u hu hup hutr
    obtain ⟨w, hwMem, hwType, hwTid⟩ := hWF.prepared_log u hu hup hutr
    exact ⟨w, List.mem_append_left _ hwMem, hwType, hwTid⟩
  · intro c hc hcType
    rcases List.mem_append.mp hc with hc | hc
    · exact hWF.commit_tx c hc hcType
    · rw [List.mem_singleton] at hc
      rw [hc] at hcType
      exact absurd hcType hlt
  · intro c hc hcType u hu huTid hutr
    rcases List.mem_append.mp hc with hc | hc
    · obtain ⟨p, hpMem, hpType, hpTid, hpLt⟩ :=
        hWF.commit_log c hc hcType u hu huTid hutr
      exact ⟨p, List.mem_append_left _ hpMem, hpType, hpTid, hpLt⟩
    · rw [List.mem_singleton] at hc
      rw [hc] at hcType
      exact absurd hcType hlt

/-- After `abort_transaction s tid`, no row of `tid` is `PREPARED`. -/
theorem abort_no_prepared {s : NodeState} {tid : String} (hWF : WF s) :
    ∀ u ∈ (abort_transaction s tid).local_txs, u.transaction_id = tid →
      u.status ≠ TransactionStatus.prepared := by
  intro u hu hutid hup
  unfold abort_transaction at hu
  cases hf : findLocalTx s tid with
  | none =>
    rw [hf] at hu
    have hsome := @findLocalTx_isSome_of_mem s tid u hu hutid
      (hWF.tx_node u hu)
    rw [hf] at hsome
    exact absurd hsome (by decide)
  | some t =>
    rw [hf] at hu
    dsimp only at hu
    have hft := findLocalTx_mem hf
    by_cases hterm : t.status = TransactionStatus.committed ∨
        t.status = TransactionStatus.aborted
    · rw [if_pos hterm] at hu
      have hut : u = t := WF_tx_eq hWF hu hft.1 (by rw [hutid, hft.2.1])
      rw [hut] at hup
      rcases hterm with h | h <;> rw [h] at hup <;>
        exact absurd hup (by decide)
    · rw [if_neg hterm] at hu
      obtain ⟨t2, ht2, hEq⟩ := List.mem_map.mp hu
      by_cases hc : (t2.transaction_id == tid && t2.node_id == s.node_id) = true
      · rw [if_pos hc] at hEq
        rw [← hEq] at hup
        simp at hup
      · rw [if_neg hc] at hEq
        subst hEq
        apply hc
        rw [Bool.and_eq_true, beq_iff_eq, beq_iff_eq]
        exact ⟨hutid, hWF.tx_node t2 ht2⟩

theorem WF_recoverStep (s : NodeState) (tid : String) (hWF : WF s) :
    WF (recoverStep s tid) := by
  have h1 : WF (abort_transaction s tid) := WF_abort s tid hWF
  have h2 : WF (release_all_locks tid (abort_transaction s tid)) :=
    WF_release tid h1 (abort_no_prepared hWF)
  exact WF_appendLog h2 tid "recovery_abort" none none true (by decide)

theorem WF_foldl_recoverStep (L : List String) :
    ∀ s : NodeState, WF s → WF (L.foldl recoverStep s) := by
  induction L with
  | nil => intro s h; exact h
  | cons tid rest ih =>
    intro s h
    exact ih _ (WF_recoverStep s tid h)

theorem WF_recover (s : NodeState) (hWF : WF s) : WF (recover s).1 := by
  unfold recover
  by_cases hrole : s.node_role ≠ "participant"
  · rw [if_pos hrole]
    exact hWF
  · rw [if_neg hrole]
    exact WF_foldl_recoverStep _ s hWF

theorem WF_applyNodeOp (s : NodeState) (op : NodeOp) (hWF : WF s) :
    WF (applyNodeOp s op) := by
  cases op with
  | prepare tid ot od polls => exact WF_prepare s tid ot od polls hWF
  | commit tid => exact WF_commit s tid hWF
  | abort tid => exact WF_abort s tid hWF
  | recovery => exact WF_recover s hWF

theorem WF_applyNodeOps (s : NodeState) (ops : List NodeOp) (hWF : WF s) :
    WF (applyNodeOps s ops) := by
  induction ops generalizing s with
  | nil => exact hWF
  | cons op rest ih => exact ih _ (WF_applyNodeOp s op hWF)

theorem WF_of_initial {s : NodeState} (h : initialState s) : WF s := by
  obtain ⟨hacc, huniq, htx, hlock, hwal⟩ := h
  constructor
  · exact fun a ha => (hacc a ha).1
  · exact fun a ha => (hacc a ha).2
  · exact huniq
  · rw [htx]
    exact fun t ht => absurd ht (List.not_mem_nil t)
  · rw [htx]
    exact List.Pairwise.nil
  · rw [htx]
    exact fun t ht => absurd ht (List.not_mem_nil t)
  · rw [hlock]
    exact List.Pairwise.nil
  · rw [hlock]
    exact fun l hl => absurd hl (List.not_mem_nil l)
  · rw [hwal]
    exact fun w hw => absurd hw (List.not_mem_nil w)
  · rw [htx]
    exact fun t ht => absurd ht (List.not_mem_nil t)
  · rw [hwal]
    exact fun c hc => absurd hc (List.not_mem_nil c)
  · rw [hwal]
    exact fun c hc => absurd hc (List.not_mem_nil c)

/-- C3: starting from a seeded state, no sequence of prepare, commit, abort
and recovery operations ever drives an account balance negative, and every
pending (`PREPARED`) debit of a transfer has balance at least the debit
amount on its account — in particular the debit account of a committed
transfer had sufficient balance in the state from which the commit applied
its delta. -/
theorem C3_balances_never_negative (s0 : NodeState) (h : initialState s0)
    (ops : List NodeOp) :
    (∀ a ∈ (applyNodeOps s0 ops).accounts, 0 ≤ a.balance) ∧
    (∀ t ∈ (applyNodeOps s0 ops).local_txs,
      t.status = TransactionStatus.prepared → t.operation_type = "transfer" →
      t.operation_data.local_delta < 0 →
      ∀ a ∈ (applyNodeOps s0 ops).accounts,
        a.id = t.operation_data.local_account →
        -t.operation_data.local_delta ≤ a.balance) := by
  have hWF := WF_applyNodeOps s0 ops (WF_of_initial h)
  refine ⟨hWF.acc_nonneg, ?_⟩
  intro t ht hp htr hd a ha hid
  obtain ⟨a0, ha0, h0Id, h0Bal, -⟩ := hWF.prepared_ok t ht hp htr
  have haa0 : a = a0 := WF_acc_eq hWF ha ha0 (by rw [hid, h0Id])
  rw [haa0]
  exact h0Bal hd

theorem C3_balances_never_negative_witness :
    initialState nodeX ∧
    (∀ a ∈ (applyNodeOps nodeX
      [NodeOp.prepare "t1" "transfer" { local_account := "X", local_delta := -30 } 1,
       NodeOp.commit "t1",
       NodeOp.prepare "t2" "transfer" { local_account := "X", local_delta := -100 } 1,
       NodeOp.recovery]).accounts, 0 ≤ a.balance) :=
  ⟨by decide,
   (C3_balances_never_negative nodeX (by decide)
      [NodeOp.prepare "t1" "transfer" { local_account := "X", local_delta := -30 } 1,
       NodeOp.commit "t1",
       NodeOp.prepare "t2" "transfer" { local_account := "X", local_delta := -100 } 1,
       NodeOp.recovery]).1⟩

/-- C6 (amended: restricted to transfer transactions — the non-transfer
prepare path reaches `PREPARED` without writing any WAL row, so a later
commit writes a `commit` row with no `prepare` row): in every state
reachable from a seeded state, every `commit` WAL row of a transfer
transaction has an earlier `prepare` WAL row for the same transaction. -/
theorem C6_commit_has_prior_prepare (s0 : NodeState) (h : initialState s0)
    (ops : List NodeOp) :
    ∀ c ∈ (applyNodeOps s0 ops).wal, c.log_type = "commit" →
    ∀ t ∈ (applyNodeOps s0 ops).local_txs,
      t.transaction_id = c.transaction_id → t.operation_type = "transfer" →
    ∃ p ∈ (applyNodeOps s0 ops).wal, p.log_type = "prepare" ∧
      p.transaction_id = c.transaction_id ∧ p.created_at < c.created_at := by
  have hWF := WF_applyNodeOps s0 ops (WF_of_initial h)
  exact hWF.commit_log

theorem C6_commit_has_prior_prepare_witness :
    ∃ p ∈ (applyNodeOps nodeX
      [NodeOp.prepare "t1" "transfer" { local_account := "X", local_delta := -30 } 1,
       NodeOp.commit "t1"]).wal,
      p.log_type = "prepare" ∧ p.transaction_id = "t1" ∧ p.created_at < 1 := by
  have h := C6_commit_has_prior_prepare nodeX (by decide)
    [NodeOp.prepare "t1" "transfer" { local_account := "X", local_delta := -30 } 1,
     NodeOp.commit "t1"]
  obtain ⟨p, hp, h1, h2, h3⟩ := h
    { transaction_id := "t1", node_id := "n1", log_type := "commit",
      old_state := none, new_state := none, applied := true, created_at := 1 }
    (by decide) (by decide)
    { transaction_id := "t1", node_id := "n1",
      status := TransactionStatus.committed, vote := some "yes",
      operation_type := "transfer",
      operation_data := { local_account := "X", local_delta := -30 },
      created_at := 0, prepared_at := some 1, decided_at := some 1 }
    (by decide) (by decide) (by decide)
  exact ⟨p, hp, h1, h2, h3⟩

/-- C6 (counterexample to the claim as stated): a prepare with a
non-`transfer` operation type reaches `PREPARED` without writing any WAL
row; the following commit appends a `commit` row, so the WAL holds a commit
row for `t1` and no `prepare` row at all. -/
theorem C6_counterexample_noop_commit :
    (∃ c ∈ (applyNodeOps nodeX
        [NodeOp.prepare "t1" "noop" { local_account := "", local_delta := 0 } 1,
         NodeOp.commit "t1"]).wal,
      c.log_type = "commit" ∧ c.transaction_id = "t1") ∧
    (∀ p ∈ (applyNodeOps nodeX
        [NodeOp.prepare "t1" "noop" { local_account := "", local_delta := 0 } 1,
         NodeOp.commit "t1"]).wal,
      p.log_type ≠ "prepare") := by
  decide

theorem abort_transaction_role (s : NodeState) (tid : String) :
    (abort_transaction s tid).node_role = s.node_role := by
  unfold abort_transaction
  cases findLocalTx s tid with
  | none => rfl
  | some t =>
    dsimp only
    split
    · rfl
    · rfl

theorem recoverStep_role (s : NodeState) (tid : String) :
    (recoverStep s tid).node_role = s.node_role :=
  abort_transaction_role s tid

theorem foldl_recoverStep_role (L : List String) :
    ∀ s : NodeState, (L.foldl recoverStep s).node_role = s.node_role := by
  induction L with
  | nil => intro s; rfl
  | cons tid0 rest ih =>
    intro s
    rw [List.foldl_cons, ih, recoverStep_role]

theorem abort_mem_of_ne {s : NodeState} {tid : String} {t : LocalTransaction}
    (ht : t ∈ s.local_txs) (hne : t.transaction_id ≠ tid) :
    t ∈ (abort_transaction s tid).local_txs := by
  unfold abort_transaction
  cases findLocalTx s tid with
  | none => exact ht
  | some u =>
    dsimp only
    split
    · exact ht
    · refine mem_map_unchanged ht ?_
      rw [if_neg]
      intro hc
      rw [Bool.and_eq_true, beq_iff_eq] at hc
      exact hne hc.1

theorem abort_aborts {s : NodeState} {tid : String} (hWF : WF s)
    {t : LocalTransaction} (ht : t ∈ s.local_txs)
    (htid : t.transaction_id = tid)
    (hp : t.status = TransactionStatus.prepared) :
    ∃ u ∈ (abort_transaction s tid).local_txs,
      u.transaction_id = tid ∧ u.status = TransactionStatus.aborted := by
  have hsome := findLocalTx_isSome_of_mem ht htid (hWF.tx_node t ht)
  cases hf : findLocalTx s tid with
  | none => rw [hf] at hsome; exact absurd hsome (by decide)
  | some t' =>
    have hm := findLocalTx_mem hf
    have htt : t' = t := WF_tx_eq hWF hm.1 ht (by rw [hm.2.1, htid])
    subst htt
    have hterm : ¬(t'.status = TransactionStatus.committed ∨
        t'.status = TransactionStatus.aborted) := by
      rw [hp]
      rintro (h | h) <;> exact absurd h (by decide)
    unfold abort_transaction
    rw [hf]
    dsimp only
    rw [if_neg hterm]
    refine ⟨_, List.mem_map_of_mem _ hm.1, ?_⟩
    rw [if_pos (by
      rw [Bool.and_eq_true, beq_iff_eq, beq_iff_eq]
      exact ⟨htid, hWF.tx_node t' hm.1⟩)]
    exact ⟨htid, rfl⟩

theorem recoverStep_keeps_aborted {s : NodeState} {tid tid2 : String}
    (hWF : WF s)
    (h : ∃ u ∈ s.local_txs, u.transaction_id = tid2 ∧
      u.status = TransactionStatus.aborted) :
    ∃ u ∈ (recoverStep s tid).local_txs, u.transaction_id = tid2 ∧
      u.status = TransactionStatus.aborted := by
  obtain ⟨u, hu, h2, h3⟩ := h
  have htxs : (recoverStep s tid).local_txs =
      (abort_transaction s tid).local_txs := rfl
  rw [htxs]
  by_cases he : u.transaction_id = tid
  · have hnoop : abort_transaction s tid = s := abort_noop (fun t'' hf => by
      have hm := findLocalTx_mem hf
      have htu : t'' = u := WF_tx_eq hWF hm.1 hu (by rw [hm.2.1]; exact he.symm)
      rw [htu]
      exact Or.inr h3)
    rw [hnoop]
    exact ⟨u, hu, h2, h3⟩
  · exact ⟨u, abort_mem_of_ne hu he, h2, h3⟩

theorem foldl_keeps_aborted (L : List String) :
    ∀ s : NodeState, WF s → ∀ tid2 : String,
    (∃ u ∈ s.local_txs, u.transaction_id = tid2 ∧
      u.status = TransactionStatus.aborted) →
    ∃ u ∈ (L.foldl recoverStep s).local_txs, u.transaction_id = tid2 ∧
      u.status = TransactionStatus.aborted := by
  induction L with
  | nil => intro s _ tid2 h; exact h
  | cons tid0 rest ih =>
    intro s hWF tid2 h
    exact ih _ (WF_recoverStep s tid0 hWF) tid2 (recoverStep_keeps_aborted hWF h)

theorem foldl_recoverStep_aborts (L : List String) :
    ∀ s : NodeState, WF s → ∀ tid ∈ L,
    (∃ t ∈ s.local_txs, t.transaction_id = tid ∧
      t.status = TransactionStatus.prepared) →
    ∃ u ∈ (L.foldl recoverStep s).local_txs, u.transaction_id = tid ∧
      u.status = TransactionStatus.aborted := by
  induction L with
  | nil => intro s _ tid h; exact absurd h (List.not_mem_nil tid)
  | cons tid0 rest ih =>
    intro s hWF tid hmem hex
    obtain ⟨t, ht, h1, h2⟩ := hex
    rw [List.foldl_cons]
    by_cases he : tid = tid0
    · subst he
      refine foldl_keeps_aborted rest _ (WF_recoverStep s tid hWF) tid ?_
      exact abort_aborts hWF ht h1 h2
    · have hmem2 : tid ∈ rest := by
        rcases List.mem_cons.mp hmem with h | h
        · exact absurd h he
        · exact h
      refine ih _ (WF_recoverStep s tid0 hWF) tid hmem2 ?_
      refine ⟨t, ?_, h1, h2⟩
      exact abort_mem_of_ne ht (by rw [h1]; exact he)

theorem release_map_keeps {tid2 tid : String} {time : Nat} {locks : List Lock}
    (h : ∀ l ∈ locks, l.transaction_id = tid2 → l.released_at ≠ none) :
    ∀ l ∈ locks.map (fun m =>
      if (m.transaction_id == tid && m.released_at.isNone) = true
      then { m with released_at := some time } else m),
      l.transaction_id = tid2 → l.released_at ≠ none := by
  intro l hl h2 h3
  obtain ⟨m, hm, heq⟩ := List.mem_map.mp hl
  by_cases hc : (m.transaction_id == tid && m.released_at.isNone) = true
  · rw [if_pos hc] at heq
    rw [← heq] at h3
    simp at h3
  · rw [if_neg hc] at heq
    subst heq
    exact h m hm h2 h3

theorem abort_keeps_released {s : NodeState} {tid tid2 : String}
    (h : ∀ l ∈ s.locks, l.transaction_id = tid2 → l.released_at ≠ none) :
    ∀ l ∈ (abort_transaction s tid).locks, l.transaction_id = tid2 →
      l.released_at ≠ none := by
  unfold abort_transaction
  cases findLocalTx s tid with
  | none => exact h
  | some t =>
    dsimp only
    split
    · exact h
    · exact release_map_keeps h

theorem recoverStep_keeps_released {s : NodeState} {tid tid2 : String}
    (h : ∀ l ∈ s.locks, l.transaction_id = tid2 → l.released_at ≠ none) :
    ∀ l ∈ (recoverStep s tid).locks, l.transaction_id = tid2 →
      l.released_at ≠ none :=
  release_map_keeps (abort_keeps_released h)

theorem recoverStep_releases (s : NodeState) (tid : String) :
    ∀ l ∈ (recoverStep s tid).locks, l.transaction_id = tid →
      l.released_at ≠ none :=
  release_all_locks_releases (abort_transaction s tid) tid

theorem foldl_keeps_released (L : List String) :
    ∀ (s : NodeState) (tid2 : String),
    (∀ l ∈ s.locks, l.transaction_id = tid2 → l.released_at ≠ none) →
    ∀ l ∈ (L.foldl recoverStep s).locks, l.transaction_id = tid2 →
      l.released_at ≠ none := by
  induction L with
  | nil => intro s tid2 h; exact h
  | cons tid0 rest ih =>
    intro s tid2 h
    exact ih _ tid2 (recoverStep_keeps_released h)

theorem foldl_recoverStep_releases (L : List String) :
    ∀ s : NodeState, ∀ tid ∈ L,
    ∀ l ∈ (L.foldl recoverStep s).locks, l.transaction_id = tid →
      l.released_at ≠ none := by
  induction L with
  | nil => intro s tid h; exact absurd h (List.not_mem_nil tid)
  | cons tid0 rest ih =>
    intro s tid hmem
    rw [List.foldl_cons]
    by_cases he : tid = tid0
    · subst he
      exact foldl_keeps_released rest _ tid (recoverStep_releases s tid)
    · refine ih _ tid ?_
      rcases List.mem_cons.mp hmem with h | h
      · exact absurd h he
      · exact h

theorem abort_wal_mono {s : NodeState} {tid : String} {w : TransactionLog}
    (hw : w ∈ s.wal) : w ∈ (abort_transaction s tid).wal := by
  unfold abort_transaction
  cases findLocalTx s tid with
  | none => exact hw
  | some t =>
    dsimp only
    split
    · exact hw
    · exact List.mem_append_left _ hw

theorem recoverStep_wal_mono {s : NodeState} {tid : String} {w : TransactionLog}
    (hw : w ∈ s.wal) : w ∈ (recoverStep s tid).wal :=
  List.mem_append_left _ (abort_wal_mono hw)

theorem recoverStep_recovery_row (s : NodeState) (tid : String) :
    ∃ w ∈ (recoverStep s tid).wal, w.log_type = "recovery_abort" ∧
      w.applied = true ∧ w.transaction_id = tid := by
  refine ⟨_, List.mem_append_right _ (List.mem_singleton_self _), rfl, rfl, rfl⟩

theorem foldl_recoverStep_wal_mono (L : List String) :
    ∀ (s : NodeState) (w : TransactionLog), w ∈ s.wal →
    w ∈ (L.foldl recoverStep s).wal := by
  induction L with
  | nil => intro s w hw; exact hw
  | cons tid0 rest ih =>
    intro s w hw
    exact ih _ w (recoverStep_wal_mono hw)

theorem foldl_recoverStep_recovery_row (L : List String) :
    ∀ s : NodeState, ∀ tid ∈ L,
    ∃ w ∈ (L.foldl recoverStep s).wal, w.log_type = "recovery_abort" ∧
      w.applied = true ∧ w.transaction_id = tid := by
  induction L with
  | nil => intro s tid h; exact absurd h (List.not_mem_nil tid)
  | cons tid0 rest ih =>
    intro s tid hmem
    rw [List.foldl_cons]
    by_cases he : tid = tid0
    · subst he
      obtain ⟨w, hw, h1, h2, h3⟩ := recoverStep_recovery_row s tid
      exact ⟨w, foldl_recoverStep_wal_mono rest _ w hw, h1, h2, h3⟩
    · refine ih _ tid ?_
      rcases List.mem_cons.mp hmem with h | h
      · exact absurd h he
      · exact h

theorem abort_prepared_rev {s : NodeState} {tid : String} (hWF : WF s) :
    ∀ u ∈ (abort_transaction s tid).local_txs,
      u.status = TransactionStatus.prepared →
      u ∈ s.local_txs ∧ u.transaction_id ≠ tid := by
  intro u hu hup
  have hne : u.transaction_id ≠ tid := fun h => abort_no_prepared hWF u hu h hup
  refine ⟨?_, hne⟩
  unfold abort_transaction at hu
  cases hf : findLocalTx s tid with
  | none => rw [hf] at hu; exact hu
  | some t =>
    rw [hf] at hu
    dsimp only at hu
    split at hu
    · exact hu
    · obtain ⟨t2, ht2, hEq⟩ := List.mem_map.mp hu
      by_cases hc : (t2.transaction_id == tid && t2.node_id == s.node_id) = true
      · rw [if_pos hc] at hEq
        rw [← hEq] at hup
        simp at hup
      · rw [if_neg hc] at hEq
        subst hEq
        exact ht2

theorem foldl_recoverStep_no_prepared (L : List String) :
    ∀ s : NodeState, WF s →
    (∀ t ∈ s.local_txs, t.status = TransactionStatus.prepared →
      t.transaction_id ∈ L) →
    ∀ u ∈ (L.foldl recoverStep s).local_txs,
      u.status ≠ TransactionStatus.prepared := by
  induction L with
  | nil =>
    intro s _ hcov u hu hup
    exact absurd (hcov u hu hup) (List.not_mem_nil _)
  | cons tid0 rest ih =>
    intro s hWF hcov
    rw [List.foldl_cons]
    refine ih _ (WF_recoverStep s tid0 hWF) ?_
    intro t ht hp
    have hrev : t ∈ s.local_txs ∧ t.transaction_id ≠ tid0 :=
      abort_prepared_rev hWF t ht hp
    rcases List.mem_cons.mp (hcov t hrev.1 hp) with h | h
    · exact absurd h hrev.2
    · exact h

/-- C8: on a participant, one run of `RecoveryManager.recover` leaves every
transaction that was `PREPARED` in status `ABORTED`, with every lock of such
a transaction released and a `recovery_abort` WAL row with `applied = true`
recorded for it; a second run on the resulting state recovers zero
transactions and changes no stored state. -/
theorem C8_recovery_aborts_prepared (s : NodeState) (hWF : WF s)
    (hrole : s.node_role = "participant") :
    (∀ t ∈ s.local_txs, t.status = TransactionStatus.prepared →
      (∃ u ∈ (recover s).1.local_txs, u.transaction_id = t.transaction_id ∧
        u.status = TransactionStatus.aborted) ∧
      (∀ l ∈ (recover s).1.locks, l.transaction_id = t.transaction_id →
        l.released_at ≠ none) ∧
      (∃ w ∈ (recover s).1.wal, w.log_type = "recovery_abort" ∧
        w.applied = true ∧ w.transaction_id = t.transaction_id)) ∧
    recover (recover s).1 = ((recover s).1, []) := by
  have hnn : ¬(s.node_role ≠ "participant") := fun h => h hrole
  have hfst : (recover s).1 =
      ((s.local_txs.filter fun t => t.node_id == s.node_id &&
        t.status == TransactionStatus.prepared).map
        (fun t => t.transaction_id)).foldl recoverStep s := by
    unfold recover
    rw [if_neg hnn]
  have hcov : ∀ t ∈ s.local_txs, t.status = TransactionStatus.prepared →
      t.transaction_id ∈ (s.local_txs.filter fun u => u.node_id == s.node_id &&
        u.status == TransactionStatus.prepared).map (fun u => u.transaction_id) := by
    intro t ht hp
    refine List.mem_map_of_mem _ (List.mem_filter.mpr ⟨ht, ?_⟩)
    rw [Bool.and_eq_true, beq_iff_eq, beq_iff_eq]
    exact ⟨hWF.tx_node t ht, hp⟩
  constructor
  · intro t ht hp
    rw [hfst]
    refine ⟨?_, ?_, ?_⟩
    · exact foldl_recoverStep_aborts _ s hWF t.transaction_id (hcov t ht hp)
        ⟨t, ht, rfl, hp⟩
    · exact foldl_recoverStep_releases _ s t.transaction_id (hcov t ht hp)
    · exact foldl_recoverStep_recovery_row _ s t.transaction_id (hcov t ht hp)
  · rw [hfst]
    have hWF2 := WF_foldl_recoverStep ((s.local_txs.filter fun t =>
      t.node_id == s.node_id && t.status == TransactionStatus.prepared).map
      (fun t => t.transaction_id)) s hWF
    have hrole2 : (((s.local_txs.filter fun t => t.node_id == s.node_id &&
        t.status == TransactionStatus.prepared).map
        (fun t => t.transaction_id)).foldl recoverStep s).node_role =
        "participant" := by
      rw [foldl_recoverStep_role]
      exact hrole
    have hnop := foldl_recoverStep_no_prepared ((s.local_txs.filter fun t =>
      t.node_id == s.node_id && t.status == TransactionStatus.prepared).map
      (fun t => t.transaction_id)) s hWF hcov
    unfold recover
    rw [if_neg (fun h => h hrole2)]
    have hfilter : ((((s.local_txs.filter fun t => t.node_id == s.node_id &&
        t.status == TransactionStatus.prepared).map
        (fun t => t.transaction_id)).foldl recoverStep s).local_txs.filter
        fun t => t.node_id == (((s.local_txs.filter fun u =>
          u.node_id == s.node_id &&
          u.status == TransactionStatus.prepared).map
          (fun u => u.transaction_id)).foldl recoverStep s).node_id &&
          t.status == TransactionStatus.prepared) = [] := by
      rw [List.filter_eq_nil]
      intro t ht
      rw [Bool.and_eq_true, beq_iff_eq, beq_iff_eq]
      rintro ⟨-, hps⟩
      exact hnop t ht hps
    dsimp only
    rw [hfilter]
    rfl

/-- Witness for C8 at the fixture `lockedNode` (transaction `t1` is
`PREPARED`, holding its write lock on `X`). -/
theorem C8_recovery_aborts_prepared_witness :
    (∃ u ∈ (recover lockedNode).1.local_txs, u.transaction_id = "t1" ∧
      u.status = TransactionStatus.aborted) ∧
    (∀ l ∈ (recover lockedNode).1.locks, l.transaction_id = "t1" →
      l.released_at ≠ none) ∧
    (∃ w ∈ (recover lockedNode).1.wal, w.log_type = "recovery_abort" ∧
      w.applied = true ∧ w.transaction_id = "t1") ∧
    recover (recover lockedNode).1 = ((recover lockedNode).1, []) := by
  have hWF : WF lockedNode := ⟨by decide, by decide, by decide, by decide,
    by decide, by decide, by decide, by decide, by decide, by decide,
    by decide, by decide⟩
  have h := C8_recovery_aborts_prepared lockedNode hWF rfl
  have ht : ({ transaction_id := "t1"
               node_id := "n1"
               status := TransactionStatus.prepared
               vote := some "yes"
               operation_type := "transfer"
               operation_data := { local_account := "X", local_delta := -30 }
               created_at := 0
               prepared_at := some 0 } : LocalTransaction) ∈
      lockedNode.local_txs := by decide
  obtain ⟨h1, h2, h3⟩ := h.1 _ ht rfl
  exact ⟨h1, h2, h3, h.2⟩

end FTDT
